import Mathlib

/-!
# VanishSerializer: a shallow embedding of `DataStream.hpp`

The stream is a byte buffer (`std::vector<char>`), a read cursor and the byte
order recorded by the constructor.  Conventions of the embedding:

* a byte is a `Fin 256`; a `bool` is a `Bool`, a `char` is a byte, `int32_t`
  and `int64_t` values are mathematical integers that are converted to and
  from their 32/64-bit two's complement object representation explicitly;
  `float` and `double` are carried as their bit patterns, since the code only
  ever copies and reverses their bytes;
* the host machine is a parameter `host : ByteOrder`: it fixes how a scalar
  object is laid out in memory, which is what the pointer casts of the source
  observe;
* the writers come in two families.  The plain ones (`WriteRaw`, `WriteBool`,
  ..., `Write`, `Write_args`) give the stream that a run which completes
  leaves, with sizes and the cursor as unbounded naturals.  The ones named
  `...Cap` (`WriteRawCap`, ..., `WriteCap`, `Write_argsCap`) follow
  `Write(const char *, int)` through `Reserve` on the 32-bit type `int` and
  carry the capacity of the vector: they have a result only when neither
  `size + length` nor `capacity *= 2` overflows, and then it is the stream of
  the plain writer (`WriteCap_stream`).  `Reserve`, `ReserveLoop` are the
  reserve computation on unbounded integers, `ReserveInt`, `ReserveLoopInt`
  the one on `int`;
* a `std::map` with `int32_t` keys and a `std::set<int32_t>` are the lists of
  their entries in ascending key order, `emplace` being the ordered insertion
  that keeps an entry already present;
* the variadic `Write_args` and `Read_args` appear over scalar values
  (`Write_args`, `Read_args`) and, with the overload of `Write` or `Read` that
  the fields select passed as a parameter, over fields of any type
  (`Write_argsWith`, `Read_argsWith`); the functions that `SERIALIZE_FUNC`
  generates are `serialize` and `deserialize`;
* a `Read` returns `Option`: `none` stands for a run without a defined result,
  that is an access outside the buffer or an exception thrown by
  `std::vector::resize`; `some (ok, data, s)` is a normal return with the
  returned flag, the destination after the call and the stream after the call.
-/

set_option autoImplicit false

namespace Vanish.Serialize

/-- The type tags of `enum DataType`. -/
inductive DataType where
  | BOOL | CHAR | INT32 | INT64 | FLOAT | DOUBLE | STRING
  | VECTOR | LIST | MAP | SET | CUSTOM
  deriving DecidableEq, Repr

/-- The numeric value of an enumerator of `DataType` (`BOOL = 0`, then counting up). -/
def DataType.toNat : DataType → Nat
  | .BOOL => 0 | .CHAR => 1 | .INT32 => 2 | .INT64 => 3 | .FLOAT => 4
  | .DOUBLE => 5 | .STRING => 6 | .VECTOR => 7 | .LIST => 8 | .MAP => 9
  | .SET => 10 | .CUSTOM => 11

/-- The two enumerators of `enum ByteOrder`. -/
inductive ByteOrder where
  | LITTLE_ENDIAN | BIG_ENDIAN
  deriving DecidableEq, Repr

/-- One element of `std::vector<char>`. -/
abbrev Byte := Fin 256

/-- The byte holding the low eight bits of a number. -/
def toByte (n : Nat) : Byte := ⟨n % 256, Nat.mod_lt n (by decide)⟩

/-- The `char type = DataType::X;` initialisation: the tag as one byte. -/
def DataType.toByte (t : DataType) : Byte := Vanish.Serialize.toByte t.toNat

/-- The `w` low-order bytes of `x`, least significant first. -/
def leBytes : Nat → Nat → List Byte
  | 0, _ => []
  | w + 1, x => toByte x :: leBytes w (x / 256)

/-- The number whose bytes, least significant first, are the given list. -/
def leValue : List Byte → Nat
  | [] => 0
  | b :: bs => b.val + 256 * leValue bs

/-- The object representation of the `w`-byte unsigned value `x` in the memory of
the host, lowest address first. -/
def objectBytes (host : ByteOrder) (w x : Nat) : List Byte :=
  match host with
  | .LITTLE_ENDIAN => leBytes w x
  | .BIG_ENDIAN => (leBytes w x).reverse

/-- The unsigned value that the host reads from an object representation. -/
def objectValue (host : ByteOrder) (bs : List Byte) : Nat :=
  match host with
  | .LITTLE_ENDIAN => leValue bs
  | .BIG_ENDIAN => leValue bs.reverse

/-- The `bits`-bit two's complement pattern of an integer. -/
def toUnsigned (bits : Nat) (v : Int) : Nat := (v % (2 : Int) ^ bits).toNat

/-- The integer denoted by a `bits`-bit two's complement pattern. -/
def toSigned (bits : Nat) (n : Nat) : Int :=
  if n % 2 ^ bits < 2 ^ (bits - 1) then ((n % 2 ^ bits : Nat) : Int)
  else ((n % 2 ^ bits : Nat) : Int) - (2 : Int) ^ bits

/-- The class `DataStream`: buffer, cursor and recorded byte order. -/
structure DataStream where
  m_buffer : List Byte
  m_position : Nat
  m_byteOrder : ByteOrder
  deriving DecidableEq, Repr

/-- `DataStream::GetSystemByteOrder`: look at the byte at the lowest address of
the `int` constant `0x12345678`. -/
def GetSystemByteOrder (host : ByteOrder) : ByteOrder :=
  let p := objectBytes host 4 0x12345678
  if (p.getD 0 0).val = 0x12 then .LITTLE_ENDIAN else .BIG_ENDIAN

/-- The constructor `DataStream()`: empty buffer, cursor 0, detected byte order. -/
def DataStream.new (host : ByteOrder) : DataStream :=
  { m_buffer := [], m_position := 0, m_byteOrder := GetSystemByteOrder host }

/-- `m_buffer[i]`: the byte at index `i`, or nothing when `i` is outside the buffer. -/
def byteAt (buf : List Byte) (i : Nat) : Option Byte := (buf.drop i).head?

/-- The `n` bytes starting at `&m_buffer[i]`, or nothing when they do not all lie
inside the buffer. -/
def bytesAt (buf : List Byte) (i n : Nat) : Option (List Byte) :=
  if i + n ≤ buf.length then some ((buf.drop i).take n) else none

/-- `std::reverse(first, first + n)` on an object representation. -/
def reverseFirst (n : Nat) (bs : List Byte) : List Byte :=
  (bs.take n).reverse ++ bs.drop n

/-- The effect on the stream of a run of
`DataStream::Write(const char *data, int length)` that completes: `length` bytes
of `data` are appended to the buffer (`resize` then `memcpy`).  Whether the run
completes is decided by `Reserve` and its `int` arithmetic, which are part of
`WriteRawCap`. -/
def WriteRaw (s : DataStream) (data : List Byte) (length : Nat) : DataStream :=
  { s with m_buffer := s.m_buffer ++ data.take length }

/-- The tag write that opens every `Write`: `Write((char *)&type, sizeof(char))`. -/
def WriteTag (s : DataStream) (t : DataType) : DataStream :=
  WriteRaw s [t.toByte] 1

/-- `DataStream::Write(bool data)`. -/
def WriteBool (s : DataStream) (data : Bool) : DataStream :=
  let s1 := WriteTag s .BOOL
  WriteRaw s1 [if data then 1 else 0] 1

/-- `DataStream::Write(char data)`. -/
def WriteChar (s : DataStream) (data : Byte) : DataStream :=
  let s1 := WriteTag s .CHAR
  WriteRaw s1 [data] 1

/-- The body shared by the four multi-byte writers: tag, then the object
representation, reversed over `sizeof(T)` bytes when the recorded byte order is
`BIG_ENDIAN`. -/
def WriteScalar (host : ByteOrder) (s : DataStream) (t : DataType) (w x : Nat) :
    DataStream :=
  let s1 := WriteTag s t
  let data := objectBytes host w x
  let data := if s.m_byteOrder = .BIG_ENDIAN then reverseFirst w data else data
  WriteRaw s1 data w

/-- `DataStream::Write(int32_t data)`. -/
def WriteInt32 (host : ByteOrder) (s : DataStream) (data : Int) : DataStream :=
  WriteScalar host s .INT32 4 (toUnsigned 32 data)

/-- `DataStream::Write(int64_t data)`. -/
def WriteInt64 (host : ByteOrder) (s : DataStream) (data : Int) : DataStream :=
  WriteScalar host s .INT64 8 (toUnsigned 64 data)

/-- `DataStream::Write(float data)`, the value given by its 32-bit pattern. -/
def WriteFloat (host : ByteOrder) (s : DataStream) (bits : Nat) : DataStream :=
  WriteScalar host s .FLOAT 4 (bits % 2 ^ 32)

/-- `DataStream::Write(double data)`, the value given by its 64-bit pattern. -/
def WriteDouble (host : ByteOrder) (s : DataStream) (bits : Nat) : DataStream :=
  WriteScalar host s .DOUBLE 8 (bits % 2 ^ 64)

/-- `DataStream::Write(const std::string &data)`: tag, the length narrowed to
`int32_t` and written as a tagged Int32, then `length` raw bytes.  A negative
narrowed length makes `resize` throw, hence `none`. -/
def WriteString (host : ByteOrder) (s : DataStream) (data : List Byte) :
    Option DataStream :=
  let s1 := WriteTag s .STRING
  let length : Int := toSigned 32 data.length
  let s2 := WriteInt32 host s1 length
  if length < 0 then none else some (WriteRaw s2 data length.toNat)

/-- `DataStream::Read(bool &data)`. -/
def ReadBool (s : DataStream) (data : Bool) : Option (Bool × Bool × DataStream) :=
  match byteAt s.m_buffer s.m_position with
  | none => none
  | some tag =>
    if tag.val ≠ DataType.BOOL.toNat then some (false, data, s)
    else
      match byteAt s.m_buffer (s.m_position + 1) with
      | none => none
      | some b => some (true, decide (b.val ≠ 0), { s with m_position := s.m_position + 2 })

/-- `DataStream::Read(char &data)`. -/
def ReadChar (s : DataStream) (data : Byte) : Option (Bool × Byte × DataStream) :=
  match byteAt s.m_buffer s.m_position with
  | none => none
  | some tag =>
    if tag.val ≠ DataType.CHAR.toNat then some (false, data, s)
    else
      match byteAt s.m_buffer (s.m_position + 1) with
      | none => none
      | some b => some (true, b, { s with m_position := s.m_position + 2 })

/-- The body shared by the four multi-byte readers: check the tag, step over it,
copy `w` bytes into the destination object, reverse the first `r` of them when
the recorded byte order is `BIG_ENDIAN`, advance by `w`.  The result is the
unsigned value of the destination object, or nothing new on a tag mismatch. -/
def ReadScalar (host : ByteOrder) (s : DataStream) (t : DataType) (w r : Nat) :
    Option (Option Nat × DataStream) :=
  match byteAt s.m_buffer s.m_position with
  | none => none
  | some tag =>
    if tag.val ≠ t.toNat then some (none, s)
    else
      match bytesAt s.m_buffer (s.m_position + 1) w with
      | none => none
      | some obj =>
        let obj := if s.m_byteOrder = .BIG_ENDIAN then reverseFirst r obj else obj
        some (some (objectValue host obj), { s with m_position := s.m_position + 1 + w })

/-- `DataStream::Read(int32_t &data)`. -/
def ReadInt32 (host : ByteOrder) (s : DataStream) (data : Int) :
    Option (Bool × Int × DataStream) :=
  match ReadScalar host s .INT32 4 4 with
  | none => none
  | some (none, s1) => some (false, data, s1)
  | some (some x, s1) => some (true, toSigned 32 x, s1)

/-- `DataStream::Read(int64_t &data)`: eight bytes are copied, and the reversal
runs over `sizeof(int32_t)` bytes, as in the source. -/
def ReadInt64 (host : ByteOrder) (s : DataStream) (data : Int) :
    Option (Bool × Int × DataStream) :=
  match ReadScalar host s .INT64 8 4 with
  | none => none
  | some (none, s1) => some (false, data, s1)
  | some (some x, s1) => some (true, toSigned 64 x, s1)

/-- `DataStream::Read(float &data)`, the value given by its 32-bit pattern. -/
def ReadFloat (host : ByteOrder) (s : DataStream) (data : Nat) :
    Option (Bool × Nat × DataStream) :=
  match ReadScalar host s .FLOAT 4 4 with
  | none => none
  | some (none, s1) => some (false, data, s1)
  | some (some x, s1) => some (true, x, s1)

/-- `DataStream::Read(double &data)`: eight bytes are copied, and the reversal
runs over `sizeof(int32_t)` bytes, as in the source. -/
def ReadDouble (host : ByteOrder) (s : DataStream) (data : Nat) :
    Option (Bool × Nat × DataStream) :=
  match ReadScalar host s .DOUBLE 8 4 with
  | none => none
  | some (none, s1) => some (false, data, s1)
  | some (some x, s1) => some (true, x, s1)

/-- `DataStream::Read(std::string &data)`: tag check, then the length through
`Read(int32_t&)` with its flag ignored, the `length <= 0` guard, then `length`
raw bytes. -/
def ReadString (host : ByteOrder) (s : DataStream) (data : List Byte) :
    Option (Bool × List Byte × DataStream) :=
  match byteAt s.m_buffer s.m_position with
  | none => none
  | some tag =>
    if tag.val ≠ DataType.STRING.toNat then some (false, data, s)
    else
      match ReadInt32 host { s with m_position := s.m_position + 1 } 0 with
      | none => none
      | some (_, length, s1) =>
        if length ≤ 0 then some (false, data, s1)
        else
          match bytesAt s1.m_buffer s1.m_position length.toNat with
          | none => none
          | some bytes =>
            some (true, bytes, { s1 with m_position := s1.m_position + length.toNat })

/-- A scalar value together with its static C++ type, which selects the overload
of `Write` and `Read`. -/
inductive Value where
  | bool (b : Bool)
  | char (c : Byte)
  | int32 (v : Int)
  | int64 (v : Int)
  | float (bits : Nat)
  | double (bits : Nat)
  | string (str : List Byte)
  deriving DecidableEq, Repr

/-- The tag that belongs to the static type of a value. -/
def Value.kind : Value → DataType
  | .bool _ => .BOOL
  | .char _ => .CHAR
  | .int32 _ => .INT32
  | .int64 _ => .INT64
  | .float _ => .FLOAT
  | .double _ => .DOUBLE
  | .string _ => .STRING

/-- A value that its C++ type can hold; for a string, a length that the
`int32_t` length field can hold. -/
def Value.inRange : Value → Prop
  | .bool _ => True
  | .char _ => True
  | .int32 v => -(2 : Int) ^ 31 ≤ v ∧ v < (2 : Int) ^ 31
  | .int64 v => -(2 : Int) ^ 63 ≤ v ∧ v < (2 : Int) ^ 63
  | .float bits => bits < 2 ^ 32
  | .double bits => bits < 2 ^ 64
  | .string str => str.length < 2 ^ 31

/-- Overload resolution of `Write` on a scalar argument. -/
def Write (host : ByteOrder) (s : DataStream) : Value → Option DataStream
  | .bool b => some (WriteBool s b)
  | .char c => some (WriteChar s c)
  | .int32 v => some (WriteInt32 host s v)
  | .int64 v => some (WriteInt64 host s v)
  | .float bits => some (WriteFloat host s bits)
  | .double bits => some (WriteDouble host s bits)
  | .string str => WriteString host s str

/-- Overload resolution of `Read` on a scalar destination. -/
def Read (host : ByteOrder) (s : DataStream) : Value → Option (Bool × Value × DataStream)
  | .bool b => (ReadBool s b).map fun r => (r.1, .bool r.2.1, r.2.2)
  | .char c => (ReadChar s c).map fun r => (r.1, .char r.2.1, r.2.2)
  | .int32 v => (ReadInt32 host s v).map fun r => (r.1, .int32 r.2.1, r.2.2)
  | .int64 v => (ReadInt64 host s v).map fun r => (r.1, .int64 r.2.1, r.2.2)
  | .float bits => (ReadFloat host s bits).map fun r => (r.1, .float r.2.1, r.2.2)
  | .double bits => (ReadDouble host s bits).map fun r => (r.1, .double r.2.1, r.2.2)
  | .string str => (ReadString host s str).map fun r => (r.1, .string r.2.1, r.2.2)

/-- `DataStream::Write_args`: write the first field, then the rest; nothing for
the empty pack. -/
def Write_args (host : ByteOrder) : DataStream → List Value → Option DataStream
  | s, [] => some s
  | s, data :: args =>
    match Write host s data with
    | none => none
    | some s1 => Write_args host s1 args

/-- `DataStream::Read_args`: read the first destination, return `false` at once
when that fails, otherwise go on with the rest; `true` for the empty pack. -/
def Read_args (host : ByteOrder) : DataStream → List Value →
    Option (Bool × List Value × DataStream)
  | s, [] => some (true, [], s)
  | s, data :: args =>
    match Read host s data with
    | none => none
    | some (false, data1, s1) => some (false, data1 :: args, s1)
    | some (true, data1, s1) =>
      match Read_args host s1 args with
      | none => none
      | some (ok, args1, s2) => some (ok, data1 :: args1, s2)

/-- The element loop of the container writers: `Write` on each element in
iteration order. -/
def WriteElems {T : Type} (writeElem : DataStream → T → Option DataStream) :
    DataStream → List T → Option DataStream
  | s, [] => some s
  | s, x :: xs =>
    match writeElem s x with
    | none => none
    | some s1 => WriteElems writeElem s1 xs

/-- `DataStream::Write(const std::vector<T> &data)`: tag, the size as a tagged
Int64, then the elements. -/
def WriteVector {T : Type} (host : ByteOrder) (writeElem : DataStream → T → Option DataStream)
    (s : DataStream) (data : List T) : Option DataStream :=
  let s1 := WriteTag s .VECTOR
  let length : Int := toSigned 64 data.length
  let s2 := WriteInt64 host s1 length
  WriteElems writeElem s2 (data.take length.toNat)

/-- `DataStream::Write(const std::map<K, V> &data)`: tag, the size as a tagged
Int64, then key and value of each entry in the iteration order of the map. -/
def WriteMap {K V : Type} (host : ByteOrder) (writeKey : DataStream → K → Option DataStream)
    (writeVal : DataStream → V → Option DataStream) (s : DataStream) (data : List (K × V)) :
    Option DataStream :=
  let s1 := WriteTag s .MAP
  let s2 := WriteInt64 host s1 (toSigned 64 data.length)
  WriteElems (fun st e =>
    match writeKey st e.1 with
    | none => none
    | some st1 => writeVal st1 e.2) s2 data

/-- The element loop `for (int i = 0; i < length; i++) { T t; Read(t); insert }`
of the sequence and set readers, started at counter `i` with `n` rounds to go.
`uninit i` is what the declaration `T t;` leaves in `t` in round `i`; the flag
of `Read(t)` is dropped as in the source. -/
def ReadElems {T C : Type} (readElem : DataStream → T → Option (Bool × T × DataStream))
    (uninit : Nat → T) (insert : C → T → C) :
    Nat → Nat → DataStream → C → Option (C × DataStream)
  | _, 0, s, data => some (data, s)
  | i, n + 1, s, data =>
    match readElem s (uninit i) with
    | none => none
    | some (_, t, s1) => ReadElems readElem uninit insert (i + 1) n s1 (insert data t)

/-- `std::vector::resize(n)`: cut to `n` elements or fill up with
value-initialised ones. -/
def vectorResize {T : Type} (zero : T) (data : List T) (n : Nat) : List T :=
  data.take n ++ List.replicate (n - data.length) zero

/-- `DataStream::Read(std::vector<T> &data)`: tag check, the count through
`Read(int64_t&)` with its flag ignored, `data.resize(length)`, then one
`emplace_back` per element read; always `true` once the tag matched.  A negative
count makes `resize` throw. -/
def ReadVector {T : Type} (host : ByteOrder)
    (readElem : DataStream → T → Option (Bool × T × DataStream))
    (uninit : Nat → T) (zero : T) (s : DataStream) (data : List T) :
    Option (Bool × List T × DataStream) :=
  match byteAt s.m_buffer s.m_position with
  | none => none
  | some tag =>
    if tag.val ≠ DataType.VECTOR.toNat then some (false, data, s)
    else
      match ReadInt64 host { s with m_position := s.m_position + 1 } 0 with
      | none => none
      | some (_, length, s1) =>
        if length < 0 then none
        else
          match ReadElems readElem uninit (fun d t => d ++ [t]) 0 length.toNat s1
              (vectorResize zero data length.toNat) with
          | none => none
          | some (data1, s2) => some (true, data1, s2)

/-- `std::map::emplace(k, v)` on a map kept as its entries in ascending key
order: the entry goes to its place in the order unless the key is present. -/
def mapEmplace {V : Type} (k : Int) (v : V) : List (Int × V) → List (Int × V)
  | [] => [(k, v)]
  | e :: rest =>
    if k < e.1 then (k, v) :: e :: rest
    else if e.1 < k then e :: mapEmplace k v rest
    else e :: rest

/-- The entry loop `for (int i = 0; i < length; i++) { K k; V v; Read(k); Read(v);
data.emplace(k, v); }` of the map reader with `int32_t` keys. -/
def ReadEntries {V : Type} (readKey : DataStream → Int → Option (Bool × Int × DataStream))
    (readVal : DataStream → V → Option (Bool × V × DataStream))
    (uninitKey : Nat → Int) (uninitVal : Nat → V) :
    Nat → Nat → DataStream → List (Int × V) → Option (List (Int × V) × DataStream)
  | _, 0, s, data => some (data, s)
  | i, n + 1, s, data =>
    match readKey s (uninitKey i) with
    | none => none
    | some (_, k, s1) =>
      match readVal s1 (uninitVal i) with
      | none => none
      | some (_, v, s2) =>
        ReadEntries readKey readVal uninitKey uninitVal (i + 1) n s2 (mapEmplace k v data)

/-- `DataStream::Read(std::map<K, V> &data)` with `int32_t` keys: tag check, the
count through `Read(int64_t&)` with its flag ignored, then the entry loop;
always `true` once the tag matched. -/
def ReadMap {V : Type} (host : ByteOrder)
    (readKey : DataStream → Int → Option (Bool × Int × DataStream))
    (readVal : DataStream → V → Option (Bool × V × DataStream))
    (uninitKey : Nat → Int) (uninitVal : Nat → V) (s : DataStream) (data : List (Int × V)) :
    Option (Bool × List (Int × V) × DataStream) :=
  match byteAt s.m_buffer s.m_position with
  | none => none
  | some tag =>
    if tag.val ≠ DataType.MAP.toNat then some (false, data, s)
    else
      match ReadInt64 host { s with m_position := s.m_position + 1 } 0 with
      | none => none
      | some (_, length, s1) =>
        match ReadEntries readKey readVal uninitKey uninitVal 0 length.toNat s1 data with
        | none => none
        | some (data1, s2) => some (true, data1, s2)

/-- `DataStream::Write(const std::list<T> &data)`: tag, the size as a tagged
Int64, then the elements from `begin()` to `end()`. -/
def WriteList {T : Type} (host : ByteOrder) (writeElem : DataStream → T → Option DataStream)
    (s : DataStream) (data : List T) : Option DataStream :=
  let s1 := WriteTag s .LIST
  let s2 := WriteInt64 host s1 (toSigned 64 data.length)
  WriteElems writeElem s2 data

/-- `DataStream::Write(const std::set<T> &data)`, the set given by its elements in
iteration order: tag, the size as a tagged Int64, then the elements. -/
def WriteSet {T : Type} (host : ByteOrder) (writeElem : DataStream → T → Option DataStream)
    (s : DataStream) (data : List T) : Option DataStream :=
  let s1 := WriteTag s .SET
  let s2 := WriteInt64 host s1 (toSigned 64 data.length)
  WriteElems writeElem s2 data

/-- `DataStream::Read(std::list<T> &data)`: tag check, the count through
`Read(int64_t&)` with its flag ignored, then one `emplace_back` per element
read; always `true` once the tag matched. -/
def ReadList {T : Type} (host : ByteOrder)
    (readElem : DataStream → T → Option (Bool × T × DataStream))
    (uninit : Nat → T) (s : DataStream) (data : List T) :
    Option (Bool × List T × DataStream) :=
  match byteAt s.m_buffer s.m_position with
  | none => none
  | some tag =>
    if tag.val ≠ DataType.LIST.toNat then some (false, data, s)
    else
      match ReadInt64 host { s with m_position := s.m_position + 1 } 0 with
      | none => none
      | some (_, length, s1) =>
        match ReadElems readElem uninit (fun d t => d ++ [t]) 0 length.toNat s1 data with
        | none => none
        | some (data1, s2) => some (true, data1, s2)

/-- `std::set<int32_t>::emplace(t)` on a set kept as its elements in ascending
order: the element goes to its place in the order unless it is present. -/
def setEmplace (t : Int) : List Int → List Int
  | [] => [t]
  | e :: rest =>
    if t < e then t :: e :: rest
    else if e < t then e :: setEmplace t rest
    else e :: rest

/-- `DataStream::Read(std::set<T> &data)` with `int32_t` elements: tag check, the
count through `Read(int64_t&)` with its flag ignored, then one `emplace` per
element read; always `true` once the tag matched. -/
def ReadSet (host : ByteOrder)
    (readElem : DataStream → Int → Option (Bool × Int × DataStream))
    (uninit : Nat → Int) (s : DataStream) (data : List Int) :
    Option (Bool × List Int × DataStream) :=
  match byteAt s.m_buffer s.m_position with
  | none => none
  | some tag =>
    if tag.val ≠ DataType.SET.toNat then some (false, data, s)
    else
      match ReadInt64 host { s with m_position := s.m_position + 1 } 0 with
      | none => none
      | some (_, length, s1) =>
        match ReadElems readElem uninit (fun d t => setEmplace t d) 0 length.toNat s1 data with
        | none => none
        | some (data1, s2) => some (true, data1, s2)

/-- The payload bytes that a multi-byte writer appends after the tag for the
`w`-byte unsigned value `x`, on a given host and with a given recorded byte
order. -/
def wireScalar (host order : ByteOrder) (w x : Nat) : List Byte :=
  if order = .BIG_ENDIAN then reverseFirst w (objectBytes host w x) else objectBytes host w x

/-- The bytes that `Write` appends for a scalar value whose string length, if
any, fits the length field (`Write_eq_encode` relates the two). -/
def encode (host order : ByteOrder) : Value → List Byte
  | .bool b => [DataType.BOOL.toByte, if b then 1 else 0]
  | .char c => [DataType.CHAR.toByte, c]
  | .int32 v => DataType.INT32.toByte :: wireScalar host order 4 (toUnsigned 32 v)
  | .int64 v => DataType.INT64.toByte :: wireScalar host order 8 (toUnsigned 64 v)
  | .float bits => DataType.FLOAT.toByte :: wireScalar host order 4 (bits % 2 ^ 32)
  | .double bits => DataType.DOUBLE.toByte :: wireScalar host order 8 (bits % 2 ^ 64)
  | .string str =>
    DataType.STRING.toByte ::
      (DataType.INT32.toByte :: wireScalar host order 4 (toUnsigned 32 (str.length : Int))) ++ str

/-- The fields of the field-list round trip: a `bool`, a `char`, an `int32_t`
within its range, or a non-empty string whose length fits the length field. -/
def Value.isField : Value → Prop
  | .bool _ => True
  | .char _ => True
  | .int32 v => -(2 : Int) ^ 31 ≤ v ∧ v < (2 : Int) ^ 31
  | .string str => str ≠ [] ∧ str.length < 2 ^ 31
  | _ => False

/-- The bytes that `Write_args` appends for a field list: the encodings of the
fields one after the other. -/
def encodeArgs (host order : ByteOrder) : List Value → List Byte
  | [] => []
  | v :: vs => encode host order v ++ encodeArgs host order vs

/-- `DataStream::Write_args` for fields of an arbitrary type, `write` being the
overload of `Write` that the fields select. -/
def Write_argsWith {α : Type} (write : DataStream → α → Option DataStream) :
    DataStream → List α → Option DataStream
  | s, [] => some s
  | s, data :: args =>
    match write s data with
    | none => none
    | some s1 => Write_argsWith write s1 args

/-- `DataStream::Read_args` for destinations of an arbitrary type, `read` being
the overload of `Read` that the destinations select: return `false` at once when
the first `Read` fails, otherwise go on with the rest; `true` for the empty
pack. -/
def Read_argsWith {α : Type} (read : DataStream → α → Option (Bool × α × DataStream)) :
    DataStream → List α → Option (Bool × List α × DataStream)
  | s, [] => some (true, [], s)
  | s, data :: args =>
    match read s data with
    | none => none
    | some (false, data1, s1) => some (false, data1 :: args, s1)
    | some (true, data1, s1) =>
      match Read_argsWith read s1 args with
      | none => none
      | some (ok, args1, s2) => some (ok, data1 :: args1, s2)

/-- A field of an aggregate: a scalar or a `std::vector<int32_t>`. -/
inductive Field where
  | scalar (v : Value)
  | vector (xs : List Int)
  deriving DecidableEq, Repr

/-- Overload resolution of `Write` on a field of an aggregate. -/
def WriteField (host : ByteOrder) (s : DataStream) : Field → Option DataStream
  | .scalar v => Write host s v
  | .vector xs => WriteVector host (fun st x => some (WriteInt32 host st x)) s xs

/-- Overload resolution of `Read` on a field of an aggregate; `uninit` is what
`T t;` leaves in the element variable of the vector reader. -/
def ReadField (host : ByteOrder) (uninit : Nat → Int) (s : DataStream) :
    Field → Option (Bool × Field × DataStream)
  | .scalar v => (Read host s v).map fun r => (r.1, .scalar r.2.1, r.2.2)
  | .vector xs =>
    (ReadVector host (ReadInt32 host) uninit 0 s xs).map fun r => (r.1, .vector r.2.1, r.2.2)

/-- Modelled from the spec: the raw read `Read(char *, int)` that the macro
`SERIALIZE_FUNC` calls and that `DataStream` neither declares nor defines.  By
section 4.1 of the specification `read_at_cursor(n)` returns the next `n` bytes
starting at the cursor and advances the cursor by `n`, and fails (here `none`)
when the range exceeds the length of the buffer. -/
def ReadRaw (s : DataStream) (length : Nat) : Option (List Byte × DataStream) :=
  match bytesAt s.m_buffer s.m_position length with
  | none => none
  | some bytes => some (bytes, { s with m_position := s.m_position + length })

/-- The `serialize` that `SERIALIZE_FUNC(fields...)` generates: the `CUSTOM` tag,
then `Write_args` over the fields. -/
def serialize {α : Type} (write : DataStream → α → Option DataStream) (s : DataStream)
    (fields : List α) : Option DataStream :=
  Write_argsWith write (WriteTag s .CUSTOM) fields

/-- The `deserialize` that `SERIALIZE_FUNC(fields...)` generates: one raw byte
into `type` (which keeps `uninitType` when the raw read fails), `false` when it
is not `CUSTOM`, otherwise `Read_args` over the fields with its flag dropped and
`return true`. -/
def deserialize {α : Type} (read : DataStream → α → Option (Bool × α × DataStream))
    (uninitType : Byte) (s : DataStream) (fields : List α) :
    Option (Bool × List α × DataStream) :=
  let r : Byte × DataStream :=
    match ReadRaw s 1 with
    | some (b :: _, s1) => (b, s1)
    | _ => (uninitType, s)
  if r.1.val ≠ DataType.CUSTOM.toNat then some (false, fields, r.2)
  else
    match Read_argsWith read r.2 fields with
    | none => none
    | some (_, fields1, s2) => some (true, fields1, s2)

/-- The stream `s1` has the buffer of `s` and a cursor that is not before the
cursor of `s`. -/
def Forward (s s1 : DataStream) : Prop :=
  s.m_position ≤ s1.m_position ∧ s1.m_buffer = s.m_buffer

/-- `sizeof(K)` for the fixed-size scalar kinds (0 for the other tags). -/
def sizeofKind : DataType → Nat
  | .BOOL => 1 | .CHAR => 1 | .INT32 => 4 | .INT64 => 8 | .FLOAT => 4 | .DOUBLE => 8
  | _ => 0

/-- Whenever `read` returns, the stream it leaves is `Forward` of the stream it
was given. -/
def ForwardReader {α : Type} (read : DataStream → α → Option (Bool × α × DataStream)) : Prop :=
  ∀ (s : DataStream) (d : α) (r : Bool × α × DataStream), read s d = some r → Forward s r.2.2

/-- One round of the body of the loop in `DataStream::Reserve`:
`if (capacity == 0) capacity = 1; else capacity *= 2;`. -/
def ReserveStep (capacity : Nat) : Nat :=
  if capacity = 0 then 1 else capacity * 2

/-- The loop `while (size + length > capacity) { ... }` of `DataStream::Reserve`,
`target` being `size + length`: the capacity with which the loop is left.  The
recursion is well founded, the distance `target - capacity` shrinking in every
round, so the loop terminates. -/
def ReserveLoop (target capacity : Nat) : Nat :=
  if capacity < target then ReserveLoop target (ReserveStep capacity) else capacity
termination_by target - capacity
decreasing_by
  simp only [ReserveStep]
  split <;> omega

/-- `DataStream::Reserve(int length)` on a vector of the given size and capacity:
the capacity passed to `m_buffer.reserve`, or `none` when `size + length` fits
the capacity and `reserve` is not called. -/
def Reserve (size capacity length : Nat) : Option Nat :=
  if size + length > capacity then some (ReserveLoop (size + length) capacity) else none

/-- The capacity from which the doubling in `Reserve` starts: the current
capacity, or 1 when that is 0. -/
def reserveBase (capacity : Nat) : Nat :=
  if capacity = 0 then 1 else capacity

/-- The values of the in-bounds decoding property: a `bool`, a `char`, an
`int32_t`, an `int64_t`, or a non-empty string whose length fits the length
field. -/
def Value.isSafeField : Value → Prop
  | .bool _ => True
  | .char _ => True
  | .int32 _ => True
  | .int64 _ => True
  | .string str => str ≠ [] ∧ str.length < 2 ^ 31
  | _ => False

/-! ### The writers with `Reserve` and the `int` arithmetic

The writers above append to a buffer of any size.  The definitions below follow
`Write(const char *, int)` through `Reserve` on the 32-bit C++ type `int` and
carry the capacity of the vector along, so that they have a result only when no
`int` computation overflows. -/

/-- The largest value of the 32-bit C++ type `int`. -/
def INT_MAX : Nat := 2 ^ 31 - 1

/-- The loop `while (size + length > capacity) { ... }` of `DataStream::Reserve`
on the type `int`: as `ReserveLoop`, except that a round whose new capacity
exceeds `INT_MAX` is a signed overflow of `capacity *= 2`, after which the run
has no defined result. -/
def ReserveLoopInt (target capacity : Nat) : Option Nat :=
  if capacity < target then
    if INT_MAX < ReserveStep capacity then none
    else ReserveLoopInt target (ReserveStep capacity)
  else some capacity
termination_by target - capacity
decreasing_by
  simp only [ReserveStep]
  split <;> omega

/-- `DataStream::Reserve(int length)` on the type `int`, for a vector of the
given size and capacity: the capacity of the vector afterwards, `reserve(n)`
making it `n`; `none` when `size + length` or a doubling of the capacity
overflows `int`. -/
def ReserveInt (size capacity length : Nat) : Option Nat :=
  if INT_MAX < size + length then none
  else if capacity < size + length then ReserveLoopInt (size + length) capacity
  else some capacity

/-- A stream together with the capacity of its vector, `m_buffer.capacity()`. -/
structure CapStream where
  stream : DataStream
  m_capacity : Nat
  deriving DecidableEq, Repr

/-- The constructor `DataStream()`: the empty vector has capacity 0. -/
def CapStream.new (host : ByteOrder) : CapStream :=
  { stream := DataStream.new host, m_capacity := 0 }

/-- `DataStream::Write(const char *data, int length)` in full: `Reserve(length)`,
then `resize(size + length)` and `memcpy`, which append `length` bytes of `data`
within the reserved capacity. -/
def WriteRawCap (sc : CapStream) (data : List Byte) (length : Nat) : Option CapStream :=
  match ReserveInt sc.stream.m_buffer.length sc.m_capacity length with
  | none => none
  | some capacity => some { stream := WriteRaw sc.stream data length, m_capacity := capacity }

/-- The tag write that opens every `Write`. -/
def WriteTagCap (sc : CapStream) (t : DataType) : Option CapStream :=
  WriteRawCap sc [t.toByte] 1

/-- `DataStream::Write(bool data)`. -/
def WriteBoolCap (sc : CapStream) (data : Bool) : Option CapStream :=
  match WriteTagCap sc .BOOL with
  | none => none
  | some sc1 => WriteRawCap sc1 [if data then 1 else 0] 1

/-- `DataStream::Write(char data)`. -/
def WriteCharCap (sc : CapStream) (data : Byte) : Option CapStream :=
  match WriteTagCap sc .CHAR with
  | none => none
  | some sc1 => WriteRawCap sc1 [data] 1

/-- The body shared by the four multi-byte writers: tag, then the object
representation, reversed over `sizeof(T)` bytes when the recorded byte order is
`BIG_ENDIAN`. -/
def WriteScalarCap (host : ByteOrder) (sc : CapStream) (t : DataType) (w x : Nat) :
    Option CapStream :=
  match WriteTagCap sc t with
  | none => none
  | some sc1 =>
    let data := objectBytes host w x
    let data := if sc.stream.m_byteOrder = .BIG_ENDIAN then reverseFirst w data else data
    WriteRawCap sc1 data w

/-- `DataStream::Write(int32_t data)`. -/
def WriteInt32Cap (host : ByteOrder) (sc : CapStream) (data : Int) : Option CapStream :=
  WriteScalarCap host sc .INT32 4 (toUnsigned 32 data)

/-- `DataStream::Write(int64_t data)`. -/
def WriteInt64Cap (host : ByteOrder) (sc : CapStream) (data : Int) : Option CapStream :=
  WriteScalarCap host sc .INT64 8 (toUnsigned 64 data)

/-- `DataStream::Write(float data)`, the value given by its 32-bit pattern. -/
def WriteFloatCap (host : ByteOrder) (sc : CapStream) (bits : Nat) : Option CapStream :=
  WriteScalarCap host sc .FLOAT 4 (bits % 2 ^ 32)

/-- `DataStream::Write(double data)`, the value given by its 64-bit pattern. -/
def WriteDoubleCap (host : ByteOrder) (sc : CapStream) (bits : Nat) : Option CapStream :=
  WriteScalarCap host sc .DOUBLE 8 (bits % 2 ^ 64)

/-- `DataStream::Write(const std::string &data)`: tag, the length narrowed to
`int32_t` and written as a tagged Int32, then `length` raw bytes.  A negative
narrowed length makes `resize` throw, hence `none`. -/
def WriteStringCap (host : ByteOrder) (sc : CapStream) (data : List Byte) :
    Option CapStream :=
  match WriteTagCap sc .STRING with
  | none => none
  | some sc1 =>
    let length : Int := toSigned 32 data.length
    match WriteInt32Cap host sc1 length with
    | none => none
    | some sc2 => if length < 0 then none else WriteRawCap sc2 data length.toNat

/-- Overload resolution of `Write` on a scalar argument. -/
def WriteCap (host : ByteOrder) (sc : CapStream) : Value → Option CapStream
  | .bool b => WriteBoolCap sc b
  | .char c => WriteCharCap sc c
  | .int32 v => WriteInt32Cap host sc v
  | .int64 v => WriteInt64Cap host sc v
  | .float bits => WriteFloatCap host sc bits
  | .double bits => WriteDoubleCap host sc bits
  | .string str => WriteStringCap host sc str

/-- `DataStream::Write_args`: write the first field, then the rest; nothing for
the empty pack. -/
def Write_argsCap (host : ByteOrder) : CapStream → List Value → Option CapStream
  | sc, [] => some sc
  | sc, data :: args =>
    match WriteCap host sc data with
    | none => none
    | some sc1 => Write_argsCap host sc1 args

/-- The element loop of the container writers: `Write` on each element in
iteration order. -/
def WriteElemsCap {T : Type} (writeElem : CapStream → T → Option CapStream) :
    CapStream → List T → Option CapStream
  | sc, [] => some sc
  | sc, x :: xs =>
    match writeElem sc x with
    | none => none
    | some sc1 => WriteElemsCap writeElem sc1 xs

/-- The opening of every container writer: the tag, then the size as a tagged
Int64. -/
def WriteHeaderCap (host : ByteOrder) (sc : CapStream) (t : DataType) (length : Int) :
    Option CapStream :=
  match WriteTagCap sc t with
  | none => none
  | some sc1 => WriteInt64Cap host sc1 length

/-- `DataStream::Write(const std::vector<T> &data)`: tag, the size as a tagged
Int64, then the elements. -/
def WriteVectorCap {T : Type} (host : ByteOrder)
    (writeElem : CapStream → T → Option CapStream) (sc : CapStream) (data : List T) :
    Option CapStream :=
  let length : Int := toSigned 64 data.length
  match WriteHeaderCap host sc .VECTOR length with
  | none => none
  | some sc2 => WriteElemsCap writeElem sc2 (data.take length.toNat)

/-- `DataStream::Write(const std::list<T> &data)`: tag, the size as a tagged
Int64, then the elements from `begin()` to `end()`. -/
def WriteListCap {T : Type} (host : ByteOrder)
    (writeElem : CapStream → T → Option CapStream) (sc : CapStream) (data : List T) :
    Option CapStream :=
  match WriteHeaderCap host sc .LIST (toSigned 64 data.length) with
  | none => none
  | some sc2 => WriteElemsCap writeElem sc2 data

/-- `DataStream::Write(const std::set<T> &data)`, the set given by its elements in
iteration order: tag, the size as a tagged Int64, then the elements. -/
def WriteSetCap {T : Type} (host : ByteOrder)
    (writeElem : CapStream → T → Option CapStream) (sc : CapStream) (data : List T) :
    Option CapStream :=
  match WriteHeaderCap host sc .SET (toSigned 64 data.length) with
  | none => none
  | some sc2 => WriteElemsCap writeElem sc2 data

/-- `DataStream::Write(const std::map<K, V> &data)`: tag, the size as a tagged
Int64, then key and value of each entry in the iteration order of the map. -/
def WriteMapCap {K V : Type} (host : ByteOrder)
    (writeKey : CapStream → K → Option CapStream)
    (writeVal : CapStream → V → Option CapStream) (sc : CapStream) (data : List (K × V)) :
    Option CapStream :=
  match WriteHeaderCap host sc .MAP (toSigned 64 data.length) with
  | none => none
  | some sc2 =>
    WriteElemsCap (fun st e =>
      match writeKey st e.1 with
      | none => none
      | some st1 => writeVal st1 e.2) sc2 data

/-- The number of bytes that `Write` appends for a scalar value. -/
def Value.wireSize : Value → Nat
  | .bool _ => 2
  | .char _ => 2
  | .int32 _ => 5
  | .int64 _ => 9
  | .float _ => 5
  | .double _ => 9
  | .string str => 6 + str.length

/-- The state after the bytes `e` have been appended by one or more complete
runs of `Write(const char *, int)`: the buffer grown by `e`, and the capacity
that the doubling of `Reserve` reaches for the new size. -/
def CapStream.append (sc : CapStream) (e : List Byte) : CapStream :=
  { stream := { sc.stream with m_buffer := sc.stream.m_buffer ++ e },
    m_capacity := ReserveLoop (sc.stream.m_buffer.length + e.length) sc.m_capacity }

/-- The bytes `e` are what `f` appends, on streams that recorded `order` and as
long as the buffer stays within `2^30` bytes: whatever the buffer `b`, the
cursor `p` and the capacity, when `b ++ e` has at most `2^30` bytes `f` returns
the stream with buffer `b ++ e`, the same cursor `p` and the same byte order. -/
def AppendsCap (order : ByteOrder) (f : CapStream → Option CapStream) (e : List Byte) : Prop :=
  ∀ (b : List Byte) (p capacity : Nat), b.length + e.length ≤ 2 ^ 30 →
    (f ⟨⟨b, p, order⟩, capacity⟩).map CapStream.stream = some ⟨b ++ e, p, order⟩

/-! ## Auxiliary facts -/

theorem leBytes_length (w x : Nat) : (leBytes w x).length = w := by
  induction w generalizing x with
  | zero => rfl
  | succ w ih => simp [leBytes, ih]

theorem leValue_leBytes (w x : Nat) : leValue (leBytes w x) = x % 256 ^ w := by
  induction w generalizing x with
  | zero => simp [leBytes, leValue, Nat.mod_one]
  | succ w ih =>
    simp only [leBytes, leValue, ih, toByte]
    rw [pow_succ, Nat.mul_comm (256 ^ w) 256, Nat.mod_mul]

theorem objectBytes_length (host : ByteOrder) (w x : Nat) :
    (objectBytes host w x).length = w := by
  cases host <;> simp [objectBytes, leBytes_length]

theorem objectValue_objectBytes (host : ByteOrder) (w x : Nat) :
    objectValue host (objectBytes host w x) = x % 256 ^ w := by
  cases host <;> simp [objectValue, objectBytes, leValue_leBytes]

theorem reverseFirst_full (n : Nat) (bs : List Byte) (h : bs.length = n) :
    reverseFirst n bs = bs.reverse := by
  subst h
  simp [reverseFirst]

theorem wireScalar_length (host order : ByteOrder) (w x : Nat) :
    (wireScalar host order w x).length = w := by
  unfold wireScalar
  split
  · rw [reverseFirst_full w _ (objectBytes_length host w x)]
    simp [objectBytes_length]
  · exact objectBytes_length host w x

/-- Undoing the reversal of the writer over the full width gives back the
object representation. -/
theorem unwire_full (host order : ByteOrder) (w x : Nat) :
    (if order = .BIG_ENDIAN then reverseFirst w (wireScalar host order w x)
      else wireScalar host order w x) = objectBytes host w x := by
  unfold wireScalar
  split
  · rw [reverseFirst_full w (objectBytes host w x) (objectBytes_length host w x),
      reverseFirst_full w _ (by simp [objectBytes_length])]
    simp
  · rfl

theorem toSigned_toUnsigned_32 (v : Int) (h1 : -(2 : Int) ^ 31 ≤ v) (h2 : v < (2 : Int) ^ 31) :
    toSigned 32 (toUnsigned 32 v % 256 ^ 4) = v := by
  unfold toSigned toUnsigned
  norm_num at h1 h2 ⊢
  split <;> omega

theorem toSigned_toUnsigned_64 (v : Int) (h1 : -(2 : Int) ^ 63 ≤ v) (h2 : v < (2 : Int) ^ 63) :
    toSigned 64 (toUnsigned 64 v % 256 ^ 8) = v := by
  unfold toSigned toUnsigned
  norm_num at h1 h2 ⊢
  split <;> omega

theorem toSigned_length (n : Nat) (h : n < 2 ^ 31) : toSigned 32 n = (n : Int) := by
  unfold toSigned
  norm_num at h ⊢
  split <;> omega

theorem byteAt_append (pre rest : List Byte) (b : Byte) :
    byteAt (pre ++ b :: rest) pre.length = some b := by
  simp [byteAt]

theorem byteAt_append_succ (pre rest : List Byte) (a b : Byte) :
    byteAt (pre ++ a :: b :: rest) (pre.length + 1) = some b := by
  have h : pre ++ a :: b :: rest = (pre ++ [a]) ++ b :: rest := by simp
  have h2 : pre.length + 1 = (pre ++ [a]).length := by simp
  rw [h, h2, byteAt_append]

theorem bytesAt_append (pre mid rest : List Byte) :
    bytesAt (pre ++ mid ++ rest) pre.length mid.length = some mid := by
  simp [bytesAt]

theorem bytesAt_append_succ (pre mid rest : List Byte) (a : Byte) :
    bytesAt (pre ++ a :: (mid ++ rest)) (pre.length + 1) mid.length = some mid := by
  have h : pre ++ a :: (mid ++ rest) = (pre ++ [a]) ++ mid ++ rest := by simp
  have h2 : pre.length + 1 = (pre ++ [a]).length := by simp
  rw [h, h2, bytesAt_append]

theorem WriteScalar_eq (host : ByteOrder) (s : DataStream) (t : DataType) (w x : Nat) :
    WriteScalar host s t w x =
      { s with m_buffer := s.m_buffer ++ t.toByte :: wireScalar host s.m_byteOrder w x } := by
  have hl := wireScalar_length host s.m_byteOrder w x
  unfold wireScalar at hl
  simp only [WriteScalar, WriteTag, WriteRaw, wireScalar]
  rw [List.take_of_length_le (Nat.le_of_eq hl)]
  simp

theorem toByte_toNat (t : DataType) : (t.toByte).val = t.toNat := by
  cases t <;> rfl

/-- Reading back, at the place where it was written, a multi-byte scalar whose
reader reverses the full width. -/
theorem ReadScalar_frame (host order : ByteOrder) (t : DataType) (w x : Nat)
    (pre rest : List Byte) :
    ReadScalar host ⟨pre ++ (t.toByte :: wireScalar host order w x) ++ rest, pre.length, order⟩
        t w w =
      some (some (x % 256 ^ w),
        ⟨pre ++ (t.toByte :: wireScalar host order w x) ++ rest, pre.length + 1 + w, order⟩) := by
  have hb : byteAt (pre ++ (t.toByte :: wireScalar host order w x) ++ rest) pre.length
      = some t.toByte := by
    simpa using byteAt_append pre (wireScalar host order w x ++ rest) t.toByte
  have hbs : bytesAt (pre ++ (t.toByte :: wireScalar host order w x) ++ rest) (pre.length + 1) w
      = some (wireScalar host order w x) := by
    have := bytesAt_append_succ pre (wireScalar host order w x) rest t.toByte
    rw [wireScalar_length] at this
    simpa using this
  simp only [ReadScalar, hb, hbs, toByte_toNat, ne_eq, not_true_eq_false, ite_false,
    unwire_full, objectValue_objectBytes]

theorem ReadBool_frame (host order : ByteOrder) (b d : Bool) (pre rest : List Byte) :
    ReadBool ⟨pre ++ encode host order (.bool b) ++ rest, pre.length, order⟩ d =
      some (true, b, ⟨pre ++ encode host order (.bool b) ++ rest, pre.length + 2, order⟩) := by
  have hb := byteAt_append pre ((if b then (1 : Byte) else 0) :: rest) DataType.BOOL.toByte
  have hc := byteAt_append_succ pre rest DataType.BOOL.toByte (if b then (1 : Byte) else 0)
  simp only [ReadBool, encode, List.append_assoc, List.cons_append, List.nil_append, hb, hc,
    toByte_toNat, ne_eq, not_true_eq_false, ite_false]
  cases b <;> simp

theorem ReadChar_frame (host order : ByteOrder) (c d : Byte) (pre rest : List Byte) :
    ReadChar ⟨pre ++ encode host order (.char c) ++ rest, pre.length, order⟩ d =
      some (true, c, ⟨pre ++ encode host order (.char c) ++ rest, pre.length + 2, order⟩) := by
  have hb := byteAt_append pre (c :: rest) DataType.CHAR.toByte
  have hc := byteAt_append_succ pre rest DataType.CHAR.toByte c
  simp only [ReadChar, encode, List.append_assoc, List.cons_append, List.nil_append, hb, hc,
    toByte_toNat, ne_eq, not_true_eq_false, ite_false]

theorem ReadInt32_frame (host order : ByteOrder) (v d : Int)
    (h1 : -(2 : Int) ^ 31 ≤ v) (h2 : v < (2 : Int) ^ 31) (pre rest : List Byte) :
    ReadInt32 host ⟨pre ++ encode host order (.int32 v) ++ rest, pre.length, order⟩ d =
      some (true, v, ⟨pre ++ encode host order (.int32 v) ++ rest, pre.length + 5, order⟩) := by
  simp only [ReadInt32, encode, ReadScalar_frame, toSigned_toUnsigned_32 v h1 h2]

theorem ReadFloat_frame (host order : ByteOrder) (bits d : Nat) (h : bits < 2 ^ 32)
    (pre rest : List Byte) :
    ReadFloat host ⟨pre ++ encode host order (.float bits) ++ rest, pre.length, order⟩ d =
      some (true, bits, ⟨pre ++ encode host order (.float bits) ++ rest, pre.length + 5, order⟩) := by
  simp only [ReadFloat, encode, ReadScalar_frame]
  norm_num at h ⊢
  omega

theorem ReadString_frame (host order : ByteOrder) (str d : List Byte)
    (h0 : str ≠ []) (h1 : str.length < 2 ^ 31) (pre rest : List Byte) :
    ReadString host ⟨pre ++ encode host order (.string str) ++ rest, pre.length, order⟩ d =
      some (true, str,
        ⟨pre ++ encode host order (.string str) ++ rest, pre.length + 6 + str.length, order⟩) := by
  have hlen : 0 < str.length := List.length_pos.mpr h0
  have hr1 : -(2 : Int) ^ 31 ≤ (str.length : Int) := by norm_num; omega
  have hr2 : (str.length : Int) < (2 : Int) ^ 31 := by norm_num at h1 ⊢; omega
  have hbuf : pre ++ encode host order (.string str) ++ rest =
      (pre ++ [DataType.STRING.toByte]) ++ encode host order (.int32 (str.length : Int))
        ++ (str ++ rest) := by
    simp [encode]
  have hb : byteAt (pre ++ encode host order (.string str) ++ rest) pre.length
      = some DataType.STRING.toByte := by
    simpa [encode] using byteAt_append pre
      ((DataType.INT32.toByte :: wireScalar host order 4 (toUnsigned 32 (str.length : Int)))
        ++ str ++ rest) DataType.STRING.toByte
  have hi := ReadInt32_frame host order (str.length : Int) 0 hr1 hr2
    (pre ++ [DataType.STRING.toByte]) (str ++ rest)
  rw [← hbuf] at hi
  simp only [List.length_append, List.length_singleton] at hi
  have hbuf2 : pre ++ encode host order (.string str) ++ rest =
      (pre ++ DataType.STRING.toByte :: encode host order (.int32 (str.length : Int)))
        ++ str ++ rest := by
    simp [encode]
  have hs : bytesAt (pre ++ encode host order (.string str) ++ rest) (pre.length + 1 + 5)
      str.length = some str := by
    have := bytesAt_append
      (pre ++ DataType.STRING.toByte :: encode host order (.int32 (str.length : Int))) str rest
    rw [← hbuf2] at this
    simpa [encode, wireScalar_length] using this
  have hpos : ¬ ((str.length : Int) ≤ 0) := by omega
  simp only [ReadString, hb, toByte_toNat, ne_eq, not_true_eq_false, ite_false, hi, hpos,
    Int.toNat_ofNat, hs]

theorem Write_eq_encode (host : ByteOrder) (s : DataStream) (v : Value) (h : v.inRange) :
    Write host s v = some { s with m_buffer := s.m_buffer ++ encode host s.m_byteOrder v } := by
  cases v with
  | bool b => simp [Write, WriteBool, WriteTag, WriteRaw, encode]
  | char c => simp [Write, WriteChar, WriteTag, WriteRaw, encode]
  | int32 v => simp [Write, WriteInt32, WriteScalar_eq, encode]
  | int64 v => simp [Write, WriteInt64, WriteScalar_eq, encode]
  | float bits => simp [Write, WriteFloat, WriteScalar_eq, encode]
  | double bits => simp [Write, WriteDouble, WriteScalar_eq, encode]
  | string str =>
    have hl : str.length < 2 ^ 31 := h
    have hnn : ¬ ((str.length : Int) < 0) := by omega
    simp [Write, WriteString, WriteInt32, WriteScalar_eq, WriteTag, WriteRaw, encode,
      toSigned_length str.length hl, hnn]


theorem GetSystemByteOrder_little : GetSystemByteOrder .LITTLE_ENDIAN = .BIG_ENDIAN := by
  decide

theorem GetSystemByteOrder_big : GetSystemByteOrder .BIG_ENDIAN = .LITTLE_ENDIAN := by
  decide

theorem WriteBool_eq (host : ByteOrder) (s : DataStream) (b : Bool) :
    WriteBool s b = { s with m_buffer := s.m_buffer ++ encode host s.m_byteOrder (.bool b) } := by
  simp [WriteBool, WriteTag, WriteRaw, encode]

theorem WriteChar_eq (host : ByteOrder) (s : DataStream) (c : Byte) :
    WriteChar s c = { s with m_buffer := s.m_buffer ++ encode host s.m_byteOrder (.char c) } := by
  simp [WriteChar, WriteTag, WriteRaw, encode]

theorem WriteInt32_eq (host : ByteOrder) (s : DataStream) (v : Int) :
    WriteInt32 host s v =
      { s with m_buffer := s.m_buffer ++ encode host s.m_byteOrder (.int32 v) } := by
  simp [WriteInt32, WriteScalar_eq, encode]

theorem WriteInt64_eq (host : ByteOrder) (s : DataStream) (v : Int) :
    WriteInt64 host s v =
      { s with m_buffer := s.m_buffer ++ encode host s.m_byteOrder (.int64 v) } := by
  simp [WriteInt64, WriteScalar_eq, encode]

theorem encode_int32_length (host order : ByteOrder) (v : Int) :
    (encode host order (.int32 v)).length = 5 := by
  simp [encode, wireScalar_length]

theorem encode_string_length (host order : ByteOrder) (str : List Byte) :
    (encode host order (.string str)).length = 6 + str.length := by
  simp [encode, wireScalar_length]
  omega

/-- Reading back a multi-byte scalar on a stream that recorded `LITTLE_ENDIAN`:
neither side reverses, whatever width the reader would reverse. -/
theorem ReadScalar_frame_little (host : ByteOrder) (t : DataType) (w r x : Nat)
    (pre rest : List Byte) :
    ReadScalar host
        ⟨pre ++ (t.toByte :: wireScalar host .LITTLE_ENDIAN w x) ++ rest, pre.length,
          .LITTLE_ENDIAN⟩ t w r =
      some (some (x % 256 ^ w),
        ⟨pre ++ (t.toByte :: wireScalar host .LITTLE_ENDIAN w x) ++ rest, pre.length + 1 + w,
          .LITTLE_ENDIAN⟩) := by
  have hb : byteAt (pre ++ (t.toByte :: wireScalar host .LITTLE_ENDIAN w x) ++ rest) pre.length
      = some t.toByte := by
    simpa using byteAt_append pre (wireScalar host .LITTLE_ENDIAN w x ++ rest) t.toByte
  have hbs : bytesAt (pre ++ (t.toByte :: wireScalar host .LITTLE_ENDIAN w x) ++ rest)
      (pre.length + 1) w = some (wireScalar host .LITTLE_ENDIAN w x) := by
    have := bytesAt_append_succ pre (wireScalar host .LITTLE_ENDIAN w x) rest t.toByte
    rw [wireScalar_length] at this
    simpa using this
  have hw : wireScalar host .LITTLE_ENDIAN w x = objectBytes host w x := by
    simp [wireScalar]
  simp only [ReadScalar, hb, hbs, toByte_toNat, ne_eq, not_true_eq_false, ite_false]
  simp [hw, objectValue_objectBytes]

/-- On a stream that recorded `LITTLE_ENDIAN` (a big-endian host), an `int64_t`
is read back as written. -/
theorem ReadInt64_frame_little (host : ByteOrder) (v d : Int)
    (h1 : -(2 : Int) ^ 63 ≤ v) (h2 : v < (2 : Int) ^ 63) (pre rest : List Byte) :
    ReadInt64 host ⟨pre ++ encode host .LITTLE_ENDIAN (.int64 v) ++ rest, pre.length,
        .LITTLE_ENDIAN⟩ d =
      some (true, v,
        ⟨pre ++ encode host .LITTLE_ENDIAN (.int64 v) ++ rest, pre.length + 9,
          .LITTLE_ENDIAN⟩) := by
  simp only [ReadInt64, encode, ReadScalar_frame_little, toSigned_toUnsigned_64 v h1 h2]


/-! ## The claims -/

/-- C1: on a freshly constructed stream and for either host byte order, writing a
`bool`, a `char` or an `int32_t` and then reading the same kind returns `true`
with the destination equal to the value written (cursor after the value). -/
theorem C1_roundtrip_bool_char_int32 (host : ByteOrder) (b b0 : Bool) (c c0 : Byte)
    (v v0 : Int) (hlo : -(2 : Int) ^ 31 ≤ v) (hhi : v < (2 : Int) ^ 31) :
    ReadBool (WriteBool (DataStream.new host) b) b0
        = some (true, b, { WriteBool (DataStream.new host) b with m_position := 2 }) ∧
    ReadChar (WriteChar (DataStream.new host) c) c0
        = some (true, c, { WriteChar (DataStream.new host) c with m_position := 2 }) ∧
    ReadInt32 host (WriteInt32 host (DataStream.new host) v) v0
        = some (true, v, { WriteInt32 host (DataStream.new host) v with m_position := 5 }) := by
  refine ⟨?_, ?_, ?_⟩
  · have h := ReadBool_frame host (GetSystemByteOrder host) b b0 [] []
    rw [WriteBool_eq host]
    simpa [DataStream.new] using h
  · have h := ReadChar_frame host (GetSystemByteOrder host) c c0 [] []
    rw [WriteChar_eq host]
    simpa [DataStream.new] using h
  · have h := ReadInt32_frame host (GetSystemByteOrder host) v v0 hlo hhi [] []
    rw [WriteInt32_eq host]
    simpa [DataStream.new] using h

/-- C1, at a concrete input: the values `true`, `'A'` and `-5` on a little-endian
host. -/
theorem C1_roundtrip_bool_char_int32_witness :
    ReadBool (WriteBool (DataStream.new .LITTLE_ENDIAN) true) false
        = some (true, true,
            { WriteBool (DataStream.new .LITTLE_ENDIAN) true with m_position := 2 }) ∧
    ReadChar (WriteChar (DataStream.new .LITTLE_ENDIAN) 65) 0
        = some (true, 65,
            { WriteChar (DataStream.new .LITTLE_ENDIAN) 65 with m_position := 2 }) ∧
    ReadInt32 .LITTLE_ENDIAN (WriteInt32 .LITTLE_ENDIAN (DataStream.new .LITTLE_ENDIAN) (-5)) 0
        = some (true, -5,
            { WriteInt32 .LITTLE_ENDIAN (DataStream.new .LITTLE_ENDIAN) (-5)
                with m_position := 5 }) :=
  C1_roundtrip_bool_char_int32 .LITTLE_ENDIAN true false 65 0 (-5) 0 (by norm_num) (by norm_num)

/-- C2, at the failing input: on a little-endian host the value `1` is written
as `00 00 00 00 00 00 00 01`, and `Read(int64_t&)`, which reverses only the first
four of the eight bytes, returns `true` with `2^56` in the destination. -/
theorem C2_int64_roundtrip_little_endian_host :
    ReadInt64 .LITTLE_ENDIAN (WriteInt64 .LITTLE_ENDIAN (DataStream.new .LITTLE_ENDIAN) 1) 0
      = some (true, 72057594037927936, ⟨[3, 0, 0, 0, 0, 0, 0, 0, 1], 9, .BIG_ENDIAN⟩) := by
  decide


/-- C4, at the failing input `{7}`: on a big-endian host `Read(std::vector<T>&)`
into an empty vector returns `true` with the two elements `0, 7` (`resize(1)`
followed by `emplace_back`); on a little-endian host the count is read back as
`2^56` and the element loop leaves the buffer.  Both hold whatever the
declaration `T t;` leaves in `t`. -/
theorem C4_vector_roundtrip_at_singleton :
    (∀ uninit : Nat → Int,
      (WriteVector .BIG_ENDIAN (fun st v => some (WriteInt32 .BIG_ENDIAN st v))
          (DataStream.new .BIG_ENDIAN) [7]).bind
        (fun s => ReadVector .BIG_ENDIAN (ReadInt32 .BIG_ENDIAN) uninit 0 s [])
      = some (true, [0, 7],
          ⟨[7, 3, 0, 0, 0, 0, 0, 0, 0, 1, 2, 0, 0, 0, 7], 15, .LITTLE_ENDIAN⟩)) ∧
    (∀ uninit : Nat → Int,
      WriteVector .LITTLE_ENDIAN (fun st v => some (WriteInt32 .LITTLE_ENDIAN st v))
          (DataStream.new .LITTLE_ENDIAN) [7]
        = some ⟨[7, 3, 0, 0, 0, 0, 0, 0, 0, 1, 2, 0, 0, 0, 7], 0, .BIG_ENDIAN⟩ ∧
      ReadInt64 .LITTLE_ENDIAN ⟨[7, 3, 0, 0, 0, 0, 0, 0, 0, 1, 2, 0, 0, 0, 7], 1, .BIG_ENDIAN⟩ 0
        = some (true, 72057594037927936,
            ⟨[7, 3, 0, 0, 0, 0, 0, 0, 0, 1, 2, 0, 0, 0, 7], 10, .BIG_ENDIAN⟩) ∧
      ReadVector .LITTLE_ENDIAN (ReadInt32 .LITTLE_ENDIAN) uninit 0
          ⟨[7, 3, 0, 0, 0, 0, 0, 0, 0, 1, 2, 0, 0, 0, 7], 0, .BIG_ENDIAN⟩ [] = none) :=
  ⟨fun _ => rfl, fun _ => ⟨rfl, rfl, rfl⟩⟩

/-- C5, at the failing input `{1:"a", 2:"b", 3:"c"}` on a little-endian host: the
count 3 is written as `00 00 00 00 00 00 00 03` and read back as `3 * 2^56`, so
the entry loop of `Read(std::map<K,V>&)` goes on after the third entry and
leaves the buffer; on a big-endian host the same input is read back as written. -/
theorem C5_map_roundtrip_at_three_entries :
    (∀ (uninitKey : Nat → Int),
      WriteMap .LITTLE_ENDIAN (fun st k => some (WriteInt32 .LITTLE_ENDIAN st k))
          (WriteString .LITTLE_ENDIAN) (DataStream.new .LITTLE_ENDIAN)
          [(1, [97]), (2, [98]), (3, [99])]
        = some ⟨[9, 3, 0, 0, 0, 0, 0, 0, 0, 3,
                 2, 0, 0, 0, 1, 6, 2, 0, 0, 0, 1, 97,
                 2, 0, 0, 0, 2, 6, 2, 0, 0, 0, 1, 98,
                 2, 0, 0, 0, 3, 6, 2, 0, 0, 0, 1, 99], 0, .BIG_ENDIAN⟩ ∧
      ReadInt64 .LITTLE_ENDIAN
          ⟨[9, 3, 0, 0, 0, 0, 0, 0, 0, 3,
            2, 0, 0, 0, 1, 6, 2, 0, 0, 0, 1, 97,
            2, 0, 0, 0, 2, 6, 2, 0, 0, 0, 1, 98,
            2, 0, 0, 0, 3, 6, 2, 0, 0, 0, 1, 99], 1, .BIG_ENDIAN⟩ 0
        = some (true, 216172782113783808,
            ⟨[9, 3, 0, 0, 0, 0, 0, 0, 0, 3,
              2, 0, 0, 0, 1, 6, 2, 0, 0, 0, 1, 97,
              2, 0, 0, 0, 2, 6, 2, 0, 0, 0, 1, 98,
              2, 0, 0, 0, 3, 6, 2, 0, 0, 0, 1, 99], 10, .BIG_ENDIAN⟩) ∧
      ReadMap .LITTLE_ENDIAN (ReadInt32 .LITTLE_ENDIAN) (ReadString .LITTLE_ENDIAN)
          uninitKey (fun _ => [])
          ⟨[9, 3, 0, 0, 0, 0, 0, 0, 0, 3,
            2, 0, 0, 0, 1, 6, 2, 0, 0, 0, 1, 97,
            2, 0, 0, 0, 2, 6, 2, 0, 0, 0, 1, 98,
            2, 0, 0, 0, 3, 6, 2, 0, 0, 0, 1, 99], 0, .BIG_ENDIAN⟩ [] = none) ∧
    (∀ (uninitKey : Nat → Int),
      (WriteMap .BIG_ENDIAN (fun st k => some (WriteInt32 .BIG_ENDIAN st k))
          (WriteString .BIG_ENDIAN) (DataStream.new .BIG_ENDIAN)
          [(1, [97]), (2, [98]), (3, [99])]).bind
        (fun s => (ReadMap .BIG_ENDIAN (ReadInt32 .BIG_ENDIAN) (ReadString .BIG_ENDIAN)
          uninitKey (fun _ => []) s []).map (fun r => (r.1, r.2.1)))
      = some (true, [(1, [97]), (2, [98]), (3, [99])])) :=
  ⟨fun _ => ⟨rfl, rfl, rfl⟩, fun _ => rfl⟩


theorem isField_inRange (v : Value) (h : v.isField) : v.inRange := by
  cases v with
  | bool b => trivial
  | char c => trivial
  | int32 v => exact h
  | int64 v => exact h.elim
  | float bits => exact h.elim
  | double bits => exact h.elim
  | string str => exact h.2

/-- Reading back a field at the place where it was written, into a destination
of the same static type. -/
theorem Read_frame (host order : ByteOrder) (v d : Value) (hv : v.isField)
    (hk : d.kind = v.kind) (pre rest : List Byte) :
    Read host ⟨pre ++ encode host order v ++ rest, pre.length, order⟩ d =
      some (true, v,
        ⟨pre ++ encode host order v ++ rest, pre.length + (encode host order v).length,
          order⟩) := by
  cases v with
  | bool b =>
    cases d <;> simp [Value.kind] at hk
    simp only [Read, ReadBool_frame host order b _ pre rest, Option.map_some']
    simp [encode]
  | char c =>
    cases d <;> simp [Value.kind] at hk
    simp only [Read, ReadChar_frame host order c _ pre rest, Option.map_some']
    simp [encode]
  | int32 v =>
    cases d <;> simp [Value.kind] at hk
    simp only [Read, ReadInt32_frame host order v _ hv.1 hv.2 pre rest, Option.map_some',
      encode_int32_length]
  | int64 v => exact hv.elim
  | float bits => exact hv.elim
  | double bits => exact hv.elim
  | string str =>
    cases d <;> simp [Value.kind] at hk
    simp only [Read, ReadString_frame host order str _ hv.1 hv.2 pre rest, Option.map_some',
      encode_string_length, Nat.add_assoc]

theorem Write_args_eq (host : ByteOrder) (fields : List Value)
    (hf : ∀ f ∈ fields, f.isField) (s : DataStream) :
    Write_args host s fields =
      some { s with m_buffer := s.m_buffer ++ encodeArgs host s.m_byteOrder fields } := by
  induction fields generalizing s with
  | nil => simp [Write_args, encodeArgs]
  | cons f fs ih =>
    have hf1 : f.isField := hf f (List.mem_cons_self f fs)
    have hfs : ∀ g ∈ fs, g.isField := fun g hg => hf g (List.mem_cons_of_mem f hg)
    simp [Write_args, Write_eq_encode host s f (isField_inRange f hf1), ih hfs, encodeArgs]

theorem Read_args_frame (host order : ByteOrder) (fields dests : List Value)
    (hf : ∀ f ∈ fields, f.isField)
    (hk : dests.map Value.kind = fields.map Value.kind) (pre rest : List Byte) :
    Read_args host ⟨pre ++ encodeArgs host order fields ++ rest, pre.length, order⟩ dests =
      some (true, fields,
        ⟨pre ++ encodeArgs host order fields ++ rest,
          pre.length + (encodeArgs host order fields).length, order⟩) := by
  induction fields generalizing dests pre with
  | nil =>
    cases dests with
    | nil => simp [Read_args, encodeArgs]
    | cons d ds => simp at hk
  | cons f fs ih =>
    cases dests with
    | nil => simp at hk
    | cons d ds =>
      have hf1 : f.isField := hf f (List.mem_cons_self f fs)
      have hfs : ∀ g ∈ fs, g.isField := fun g hg => hf g (List.mem_cons_of_mem f hg)
      simp only [List.map_cons, List.cons.injEq] at hk
      have h1 := Read_frame host order f d hf1 hk.1 pre (encodeArgs host order fs ++ rest)
      have h2 := ih ds hfs hk.2 (pre ++ encode host order f)
      have hbuf : pre ++ encodeArgs host order (f :: fs) ++ rest =
          pre ++ encode host order f ++ (encodeArgs host order fs ++ rest) := by
        simp [encodeArgs]
      have hbuf2 : pre ++ encode host order f ++ encodeArgs host order fs ++ rest =
          pre ++ encode host order f ++ (encodeArgs host order fs ++ rest) := by
        simp
      rw [hbuf2, List.length_append] at h2
      rw [hbuf]
      simp only [Read_args, h1, h2]
      simp [encodeArgs, Nat.add_assoc]


theorem byteAt_encode_zero (host order : ByteOrder) (v : Value) :
    byteAt (encode host order v) 0 = some v.kind.toByte := by
  cases v <;> simp [byteAt, encode, Value.kind]

theorem ReadScalar_tag_mismatch (host : ByteOrder) (s : DataStream) (t : DataType) (w r : Nat)
    (tag : Byte) (hb : byteAt s.m_buffer s.m_position = some tag) (hne : tag.val ≠ t.toNat) :
    ReadScalar host s t w r = some (none, s) := by
  simp [ReadScalar, hb, hne]

/-- A `Read` that finds another tag than its own at the cursor returns `false`
and leaves destination and stream as they were. -/
theorem Read_tag_mismatch (host : ByteOrder) (s : DataStream) (a : Value) (tag : Byte)
    (hb : byteAt s.m_buffer s.m_position = some tag) (hne : tag.val ≠ a.kind.toNat) :
    Read host s a = some (false, a, s) := by
  cases a with
  | bool b =>
    have h : ReadBool s b = some (false, b, s) := by
      simp only [ReadBool, hb]
      exact if_pos hne
    simp only [Read, h, Option.map_some']
  | char c =>
    have h : ReadChar s c = some (false, c, s) := by
      simp only [ReadChar, hb]
      exact if_pos hne
    simp only [Read, h, Option.map_some']
  | int32 v =>
    simp [Read, ReadInt32, ReadScalar_tag_mismatch host s .INT32 4 4 tag hb hne]
  | int64 v =>
    simp [Read, ReadInt64, ReadScalar_tag_mismatch host s .INT64 8 4 tag hb hne]
  | float bits =>
    simp [Read, ReadFloat, ReadScalar_tag_mismatch host s .FLOAT 4 4 tag hb hne]
  | double bits =>
    simp [Read, ReadDouble, ReadScalar_tag_mismatch host s .DOUBLE 8 4 tag hb hne]
  | string str =>
    have h : ReadString host s str = some (false, str, s) := by
      simp only [ReadString, hb]
      exact if_pos hne
    simp only [Read, h, Option.map_some']

theorem kind_toByte_ne (a b : Value) (hk : a.kind ≠ b.kind) :
    (b.kind.toByte).val ≠ a.kind.toNat := by
  rw [toByte_toNat]
  intro h
  apply hk
  cases a <;> cases b <;> simp [Value.kind, DataType.toNat] at h ⊢

/-- C7: for either host byte order, any two scalar types with different tags
among `bool`, `char`, `int32_t`, `int64_t`, `float`, `double` and `std::string`
and any value `b` of the second type, `Write(b)` on a freshly constructed stream
followed by `Read` into a destination `a` of the first type returns `false` and
leaves the destination (and the stream) as it was. -/
theorem C7_tag_guard (host : ByteOrder) (a b : Value) (hk : a.kind ≠ b.kind)
    (hb : b.inRange) :
    ∃ s : DataStream, Write host (DataStream.new host) b = some s ∧
      Read host s a = some (false, a, s) := by
  refine ⟨_, Write_eq_encode host (DataStream.new host) b hb, ?_⟩
  apply Read_tag_mismatch host _ a b.kind.toByte
  · simpa [DataStream.new] using byteAt_encode_zero host (GetSystemByteOrder host) b
  · exact kind_toByte_ne a b hk

/-- C7, at a concrete input: after `Write(std::string("a"))` on a little-endian
host, `Read(int64_t&)` into a destination holding 42. -/
theorem C7_tag_guard_witness :
    ∃ s : DataStream, Write .LITTLE_ENDIAN (DataStream.new .LITTLE_ENDIAN) (.string [97]) = some s ∧
      Read .LITTLE_ENDIAN s (.int64 42) = some (false, .int64 42, s) :=
  C7_tag_guard .LITTLE_ENDIAN (.int64 42) (.string [97]) (by decide)
    (by norm_num [Value.inRange])

/-- C8: in every stream state whose byte at the cursor is the String tag and
where `Read(int32_t&)` just behind it returns `true` with a length `len ≤ 0`,
`Read(std::string&)` returns `false` and leaves the destination string as it
was; the cursor is where the length read left it. -/
theorem C8_empty_length_rejection (host : ByteOrder) (s s1 : DataStream) (len : Int)
    (d : List Byte)
    (htag : byteAt s.m_buffer s.m_position = some DataType.STRING.toByte)
    (hlen : ReadInt32 host { s with m_position := s.m_position + 1 } 0 = some (true, len, s1))
    (hle : len ≤ 0) :
    ReadString host s d = some (false, d, s1) := by
  simp [ReadString, htag, toByte_toNat, hlen, hle]

/-- C8, at a concrete input: the bytes `06 02 FF FF FF FF` (length `-1`) on a
little-endian host, with the destination holding `"x"`. -/
theorem C8_empty_length_rejection_witness :
    ReadString .LITTLE_ENDIAN ⟨[6, 2, 255, 255, 255, 255], 0, .BIG_ENDIAN⟩ [120]
      = some (false, [120], ⟨[6, 2, 255, 255, 255, 255], 6, .BIG_ENDIAN⟩) :=
  C8_empty_length_rejection .LITTLE_ENDIAN ⟨[6, 2, 255, 255, 255, 255], 0, .BIG_ENDIAN⟩
    ⟨[6, 2, 255, 255, 255, 255], 6, .BIG_ENDIAN⟩ (-1) [120] (by decide) (by decide) (by decide)

/-- C9, at the failing input `0x01020304`: the detection in `GetSystemByteOrder`
answers `BIG_ENDIAN` on a little-endian host and `LITTLE_ENDIAN` on a big-endian
host, and on both hosts `Write(int32_t)` appends the tag 2 followed by
`01 02 03 04`, the most significant byte first. -/
theorem C9_int32_wire_bytes_at_0x01020304 :
    GetSystemByteOrder .LITTLE_ENDIAN = .BIG_ENDIAN ∧
    GetSystemByteOrder .BIG_ENDIAN = .LITTLE_ENDIAN ∧
    (WriteInt32 .LITTLE_ENDIAN (DataStream.new .LITTLE_ENDIAN) 0x01020304).m_buffer
      = [2, 1, 2, 3, 4] ∧
    (WriteInt32 .BIG_ENDIAN (DataStream.new .BIG_ENDIAN) 0x01020304).m_buffer
      = [2, 1, 2, 3, 4] := by
  decide

theorem wireScalar_constructed (w x : Nat) :
    wireScalar .LITTLE_ENDIAN (GetSystemByteOrder .LITTLE_ENDIAN) w x
      = wireScalar .BIG_ENDIAN (GetSystemByteOrder .BIG_ENDIAN) w x := by
  rw [GetSystemByteOrder_little, GetSystemByteOrder_big]
  simp [wireScalar, objectBytes, reverseFirst_full w (leBytes w x) (leBytes_length w x)]

/-- C10: for every `int32_t` and every `int64_t` value (any integer, narrowed to
the width of the type) and every earlier content of the buffer, `Write` on a
stream constructed on a little-endian host leaves the same buffer as `Write` on
a stream constructed on a big-endian host: the bytes appended are identical. -/
theorem C10_wire_form_host_independent (buf : List Byte) (pos : Nat) (v : Int) :
    (WriteInt32 .LITTLE_ENDIAN ⟨buf, pos, GetSystemByteOrder .LITTLE_ENDIAN⟩ v).m_buffer
      = (WriteInt32 .BIG_ENDIAN ⟨buf, pos, GetSystemByteOrder .BIG_ENDIAN⟩ v).m_buffer ∧
    (WriteInt64 .LITTLE_ENDIAN ⟨buf, pos, GetSystemByteOrder .LITTLE_ENDIAN⟩ v).m_buffer
      = (WriteInt64 .BIG_ENDIAN ⟨buf, pos, GetSystemByteOrder .BIG_ENDIAN⟩ v).m_buffer := by
  simp only [WriteInt32, WriteInt64, WriteScalar_eq, wireScalar_constructed, and_self]


theorem Read_args_eq_with (host : ByteOrder) (s : DataStream) (dests : List Value) :
    Read_args host s dests = Read_argsWith (Read host) s dests := by
  induction dests generalizing s with
  | nil => rfl
  | cons d ds ih =>
    simp only [Read_args, Read_argsWith]
    cases hr : Read host s d with
    | none => rfl
    | some r =>
      obtain ⟨ok, d1, s1⟩ := r
      cases ok
      · rfl
      · simp only [ih]
        cases Read_argsWith (Read host) s1 ds with
        | none => rfl
        | some r2 =>
          obtain ⟨ok2, ds2, s2⟩ := r2
          rfl

/-- C11: whenever `Read_args` returns `false`, the destinations split into those
before a field `d`, the field `d` and those after it, such that `Read_args` over
the ones before returned `true` (every `Read` there succeeded), the `Read` of
`d` returned `false`, the destinations after `d` are as they were before the
call, and the stream is the one the failed `Read` of `d` left (no later `Read`
ran). -/
theorem C11_read_args_stops_at_first_failure {α : Type}
    (read : DataStream → α → Option (Bool × α × DataStream))
    (s s1 : DataStream) (dests dests1 : List α)
    (h : Read_argsWith read s dests = some (false, dests1, s1)) :
    ∃ (front front1 back : List α) (d d1 : α) (si : DataStream),
      dests = front ++ d :: back ∧
      Read_argsWith read s front = some (true, front1, si) ∧
      read si d = some (false, d1, s1) ∧
      dests1 = front1 ++ d1 :: back := by
  induction dests generalizing s dests1 with
  | nil => simp [Read_argsWith] at h
  | cons d ds ih =>
    simp only [Read_argsWith] at h
    cases hr : read s d with
    | none => simp [hr] at h
    | some r =>
      obtain ⟨ok, d1, s2⟩ := r
      cases ok with
      | false =>
        simp only [hr, Option.some.injEq, Prod.mk.injEq, true_and] at h
        refine ⟨[], [], ds, d, d1, s, rfl, rfl, ?_, ?_⟩
        · rw [hr, h.2]
        · simp [h.1]
      | true =>
        simp only [hr] at h
        cases hrest : Read_argsWith read s2 ds with
        | none => simp [hrest] at h
        | some r2 =>
          obtain ⟨ok2, ds2, s3⟩ := r2
          simp only [hrest, Option.some.injEq, Prod.mk.injEq] at h
          obtain ⟨hok, hds, hs⟩ := h
          subst hok hs
          obtain ⟨front, front1, back, e, e1, si, h1, h2, h3, h4⟩ := ih s2 ds2 hrest
          refine ⟨d :: front, d1 :: front1, back, e, e1, si, ?_, ?_, h3, ?_⟩
          · simp [h1]
          · simp only [Read_argsWith, hr, h2]
          · simp [← hds, h4]

/-- C11, at a concrete input: on a little-endian host the buffer holds an Int32
and then a Bool, and `Read_args` runs over three `int32_t` destinations: the
second `Read` fails, the third destination keeps its 9 and the cursor stays at
5. -/
theorem C11_read_args_stops_at_first_failure_witness :
    ∃ (front front1 back : List Value) (d d1 : Value) (si : DataStream),
      [Value.int32 0, Value.int32 8, Value.int32 9] = front ++ d :: back ∧
      Read_argsWith (Read .LITTLE_ENDIAN) ⟨[2, 0, 0, 0, 7, 0, 1], 0, .BIG_ENDIAN⟩ front
        = some (true, front1, si) ∧
      Read .LITTLE_ENDIAN si d = some (false, d1, ⟨[2, 0, 0, 0, 7, 0, 1], 5, .BIG_ENDIAN⟩) ∧
      [Value.int32 7, Value.int32 8, Value.int32 9] = front1 ++ d1 :: back :=
  C11_read_args_stops_at_first_failure (Read .LITTLE_ENDIAN)
    ⟨[2, 0, 0, 0, 7, 0, 1], 0, .BIG_ENDIAN⟩ ⟨[2, 0, 0, 0, 7, 0, 1], 5, .BIG_ENDIAN⟩
    [.int32 0, .int32 8, .int32 9] [.int32 7, .int32 8, .int32 9] (by decide)

/-- C12, at the failing input: the aggregate `(5, "a", {7})` with fields
`(int32_t, std::string, std::vector<int32_t>)` is serialized (the same 28 bytes
on both hosts) and the tag of its third field, at index 13, is changed from 7
to 0.  `Read_args` over the three fields returns `false`, and `deserialize`
returns `true` all the same, on either host and whatever `T t;` and `char type;`
leave behind.  A wrong aggregate tag does make `deserialize` return `false`. -/
theorem C12_deserialize_at_corrupted_third_field :
    (∀ host : ByteOrder,
      serialize (WriteField host) (DataStream.new host)
          [.scalar (.int32 5), .scalar (.string [97]), .vector [7]]
        = some ⟨[11, 2, 0, 0, 0, 5, 6, 2, 0, 0, 0, 1, 97,
                 7, 3, 0, 0, 0, 0, 0, 0, 0, 1, 2, 0, 0, 0, 7], 0, GetSystemByteOrder host⟩) ∧
    (∀ (host : ByteOrder) (uninit : Nat → Int) (uninitType : Byte),
      Read_argsWith (ReadField host uninit)
          ⟨[11, 2, 0, 0, 0, 5, 6, 2, 0, 0, 0, 1, 97,
            0, 3, 0, 0, 0, 0, 0, 0, 0, 1, 2, 0, 0, 0, 7], 1, GetSystemByteOrder host⟩
          [.scalar (.int32 0), .scalar (.string []), .vector []]
        = some (false, [.scalar (.int32 5), .scalar (.string [97]), .vector []],
            ⟨[11, 2, 0, 0, 0, 5, 6, 2, 0, 0, 0, 1, 97,
              0, 3, 0, 0, 0, 0, 0, 0, 0, 1, 2, 0, 0, 0, 7], 13, GetSystemByteOrder host⟩) ∧
      deserialize (ReadField host uninit) uninitType
          ⟨[11, 2, 0, 0, 0, 5, 6, 2, 0, 0, 0, 1, 97,
            0, 3, 0, 0, 0, 0, 0, 0, 0, 1, 2, 0, 0, 0, 7], 0, GetSystemByteOrder host⟩
          [.scalar (.int32 0), .scalar (.string []), .vector []]
        = some (true, [.scalar (.int32 5), .scalar (.string [97]), .vector []],
            ⟨[11, 2, 0, 0, 0, 5, 6, 2, 0, 0, 0, 1, 97,
              0, 3, 0, 0, 0, 0, 0, 0, 0, 1, 2, 0, 0, 0, 7], 13, GetSystemByteOrder host⟩) ∧
      deserialize (ReadField host uninit) uninitType
          ⟨[10, 2, 0, 0, 0, 5], 0, GetSystemByteOrder host⟩ [.scalar (.int32 0)]
        = some (false, [.scalar (.int32 0)],
            ⟨[10, 2, 0, 0, 0, 5], 1, GetSystemByteOrder host⟩)) := by
  refine ⟨fun host => ?_, fun host uninit uninitType => ?_⟩
  · cases host <;> rfl
  · have hraw : ∀ (buf : List Byte) (b : Byte) (o : ByteOrder),
        ReadRaw ⟨b :: buf, 0, o⟩ 1 = some ([b], ⟨b :: buf, 1, o⟩) := by
      intro buf b o
      simp [ReadRaw, bytesAt]
    have hargs : Read_argsWith (ReadField host uninit)
          ⟨[11, 2, 0, 0, 0, 5, 6, 2, 0, 0, 0, 1, 97,
            0, 3, 0, 0, 0, 0, 0, 0, 0, 1, 2, 0, 0, 0, 7], 1, GetSystemByteOrder host⟩
          [.scalar (.int32 0), .scalar (.string []), .vector []]
        = some (false, [.scalar (.int32 5), .scalar (.string [97]), .vector []],
            ⟨[11, 2, 0, 0, 0, 5, 6, 2, 0, 0, 0, 1, 97,
              0, 3, 0, 0, 0, 0, 0, 0, 0, 1, 2, 0, 0, 0, 7], 13, GetSystemByteOrder host⟩) := by
      cases host <;> rfl
    refine ⟨hargs, ?_, ?_⟩
    · simp only [deserialize, hraw, hargs]
      rfl
    · simp only [deserialize, hraw]
      rfl


/-- C13, at failing inputs on a big-endian host (the stream recorded
`LITTLE_ENDIAN`, so the count 1 is read as 1): in each buffer the container tag
and the count are intact and the `Read` of an element returns `false` (its tag
is 0), and the vector, list, set and map readers return `true` all the same,
having inserted what `T t;` held (for the map: key 1 with the empty string). -/
theorem C13_container_read_ignores_element_failure :
    (∀ d : Int,
      ReadInt32 .BIG_ENDIAN ⟨[7, 3, 0, 0, 0, 0, 0, 0, 0, 1, 0, 0, 0, 0, 7], 10, .LITTLE_ENDIAN⟩ d
        = some (false, d, ⟨[7, 3, 0, 0, 0, 0, 0, 0, 0, 1, 0, 0, 0, 0, 7], 10, .LITTLE_ENDIAN⟩)) ∧
    (∀ uninit : Nat → Int,
      ReadVector .BIG_ENDIAN (ReadInt32 .BIG_ENDIAN) uninit 0
          ⟨[7, 3, 0, 0, 0, 0, 0, 0, 0, 1, 0, 0, 0, 0, 7], 0, .LITTLE_ENDIAN⟩ []
        = some (true, [0, uninit 0],
            ⟨[7, 3, 0, 0, 0, 0, 0, 0, 0, 1, 0, 0, 0, 0, 7], 10, .LITTLE_ENDIAN⟩)) ∧
    (∀ uninit : Nat → Int,
      ReadList .BIG_ENDIAN (ReadInt32 .BIG_ENDIAN) uninit
          ⟨[8, 3, 0, 0, 0, 0, 0, 0, 0, 1, 0, 0, 0, 0, 7], 0, .LITTLE_ENDIAN⟩ []
        = some (true, [uninit 0],
            ⟨[8, 3, 0, 0, 0, 0, 0, 0, 0, 1, 0, 0, 0, 0, 7], 10, .LITTLE_ENDIAN⟩)) ∧
    (∀ uninit : Nat → Int,
      ReadSet .BIG_ENDIAN (ReadInt32 .BIG_ENDIAN) uninit
          ⟨[10, 3, 0, 0, 0, 0, 0, 0, 0, 1, 0, 0, 0, 0, 7], 0, .LITTLE_ENDIAN⟩ []
        = some (true, [uninit 0],
            ⟨[10, 3, 0, 0, 0, 0, 0, 0, 0, 1, 0, 0, 0, 0, 7], 10, .LITTLE_ENDIAN⟩)) ∧
    (∀ d : List Byte,
      ReadString .BIG_ENDIAN
          ⟨[9, 3, 0, 0, 0, 0, 0, 0, 0, 1, 2, 0, 0, 0, 1, 0, 2, 0, 0, 0, 1, 97], 15,
            .LITTLE_ENDIAN⟩ d
        = some (false, d,
            ⟨[9, 3, 0, 0, 0, 0, 0, 0, 0, 1, 2, 0, 0, 0, 1, 0, 2, 0, 0, 0, 1, 97], 15,
              .LITTLE_ENDIAN⟩)) ∧
    (∀ uninitKey : Nat → Int,
      ReadMap .BIG_ENDIAN (ReadInt32 .BIG_ENDIAN) (ReadString .BIG_ENDIAN) uninitKey
          (fun _ => [])
          ⟨[9, 3, 0, 0, 0, 0, 0, 0, 0, 1, 2, 0, 0, 0, 1, 0, 2, 0, 0, 0, 1, 97], 0,
            .LITTLE_ENDIAN⟩ []
        = some (true, [(1, [])],
            ⟨[9, 3, 0, 0, 0, 0, 0, 0, 0, 1, 2, 0, 0, 0, 1, 0, 2, 0, 0, 0, 1, 97], 15,
              .LITTLE_ENDIAN⟩)) :=
  ⟨fun _ => rfl, fun _ => rfl, fun _ => rfl, fun _ => rfl, fun _ => rfl, fun _ => rfl⟩

/-- C14, at failing inputs: the container tag followed by the tagged Int64
`FF FF FF FF FF FF FF FF`, which `Read(int64_t&)` reads as `-1` on either host.
The list, set and map readers return `true` and leave the destination as it
was; the vector reader calls `resize(-1)`, which throws, and returns nothing. -/
theorem C14_container_read_at_negative_count :
    (∀ host : ByteOrder,
      ReadInt64 host
          ⟨[8, 3, 255, 255, 255, 255, 255, 255, 255, 255], 1, GetSystemByteOrder host⟩ 0
        = some (true, -1,
            ⟨[8, 3, 255, 255, 255, 255, 255, 255, 255, 255], 10, GetSystemByteOrder host⟩)) ∧
    (∀ (host : ByteOrder) (uninit : Nat → Int),
      ReadList host (ReadInt32 host) uninit
          ⟨[8, 3, 255, 255, 255, 255, 255, 255, 255, 255], 0, GetSystemByteOrder host⟩ [4]
        = some (true, [4],
            ⟨[8, 3, 255, 255, 255, 255, 255, 255, 255, 255], 10, GetSystemByteOrder host⟩)) ∧
    (∀ (host : ByteOrder) (uninit : Nat → Int),
      ReadSet host (ReadInt32 host) uninit
          ⟨[10, 3, 255, 255, 255, 255, 255, 255, 255, 255], 0, GetSystemByteOrder host⟩ [4]
        = some (true, [4],
            ⟨[10, 3, 255, 255, 255, 255, 255, 255, 255, 255], 10, GetSystemByteOrder host⟩)) ∧
    (∀ (host : ByteOrder) (uninitKey : Nat → Int),
      ReadMap host (ReadInt32 host) (ReadString host) uninitKey (fun _ => [])
          ⟨[9, 3, 255, 255, 255, 255, 255, 255, 255, 255], 0, GetSystemByteOrder host⟩
          [(4, [97])]
        = some (true, [(4, [97])],
            ⟨[9, 3, 255, 255, 255, 255, 255, 255, 255, 255], 10, GetSystemByteOrder host⟩)) ∧
    (∀ (host : ByteOrder) (uninit : Nat → Int),
      ReadVector host (ReadInt32 host) uninit 0
          ⟨[7, 3, 255, 255, 255, 255, 255, 255, 255, 255], 0, GetSystemByteOrder host⟩ [4]
        = none) := by
  refine ⟨fun host => ?_, fun host _ => ?_, fun host _ => ?_, fun host _ => ?_,
    fun host _ => ?_⟩ <;> cases host <;> rfl


theorem byteAt_none (buf : List Byte) (i : Nat) (h : buf.length ≤ i) : byteAt buf i = none := by
  simp [byteAt, List.drop_eq_nil_of_le h]

theorem bytesAt_none (buf : List Byte) (i n : Nat) (h : buf.length < i + n) :
    bytesAt buf i n = none := by
  simp [bytesAt, Nat.not_le.mpr h]

/-- A `Read` with the cursor at or behind the end of the buffer accesses
`m_buffer[m_position]` outside the buffer. -/
theorem Read_at_end (host : ByteOrder) (s : DataStream) (a : Value)
    (h : s.m_buffer.length ≤ s.m_position) : Read host s a = none := by
  have hb := byteAt_none s.m_buffer s.m_position h
  cases a <;>
    simp [Read, ReadBool, ReadChar, ReadInt32, ReadInt64, ReadFloat, ReadDouble, ReadString,
      ReadScalar, hb]

/-- A `Read` of a fixed-size kind whose tag is at the cursor and whose payload
is not completely inside the buffer reads outside the buffer. -/
theorem Read_short_payload (host : ByteOrder) (s : DataStream) (a : Value)
    (hk : a.kind ≠ .STRING)
    (hb : byteAt s.m_buffer s.m_position = some a.kind.toByte)
    (h : s.m_buffer.length < s.m_position + 1 + sizeofKind a.kind) :
    Read host s a = none := by
  cases a with
  | bool b =>
    have h1 := byteAt_none s.m_buffer (s.m_position + 1) (by simpa [sizeofKind, Value.kind] using Nat.le_of_lt_succ h)
    simp only [Value.kind] at hb
    simp [Read, ReadBool, hb, h1, toByte_toNat]
  | char c =>
    have h1 := byteAt_none s.m_buffer (s.m_position + 1) (by simpa [sizeofKind, Value.kind] using Nat.le_of_lt_succ h)
    simp only [Value.kind] at hb
    simp [Read, ReadChar, hb, h1, toByte_toNat]
  | int32 v =>
    have h1 := bytesAt_none s.m_buffer (s.m_position + 1) 4 (by simpa [sizeofKind, Value.kind] using h)
    simp only [Value.kind] at hb
    simp [Read, ReadInt32, ReadScalar, hb, h1, toByte_toNat]
  | int64 v =>
    have h1 := bytesAt_none s.m_buffer (s.m_position + 1) 8 (by simpa [sizeofKind, Value.kind] using h)
    simp only [Value.kind] at hb
    simp [Read, ReadInt64, ReadScalar, hb, h1, toByte_toNat]
  | float bits =>
    have h1 := bytesAt_none s.m_buffer (s.m_position + 1) 4 (by simpa [sizeofKind, Value.kind] using h)
    simp only [Value.kind] at hb
    simp [Read, ReadFloat, ReadScalar, hb, h1, toByte_toNat]
  | double bits =>
    have h1 := bytesAt_none s.m_buffer (s.m_position + 1) 8 (by simpa [sizeofKind, Value.kind] using h)
    simp only [Value.kind] at hb
    simp [Read, ReadDouble, ReadScalar, hb, h1, toByte_toNat]
  | string str => exact absurd rfl hk

/-- C15 fails: with an empty buffer, and with the two bytes `02 01` (an Int32
tag and one of four payload bytes), `Read(int32_t&)` does not return `false`: it
indexes `m_buffer` outside its bounds and has no defined result; likewise
`Read(bool&)` on the single byte `00`. -/
theorem C15_out_of_bounds_counterexample :
    ReadInt32 .LITTLE_ENDIAN ⟨[], 0, .BIG_ENDIAN⟩ 0 = none ∧
    ReadInt32 .LITTLE_ENDIAN ⟨[2, 1], 0, .BIG_ENDIAN⟩ 0 = none ∧
    ReadBool ⟨[0], 0, .BIG_ENDIAN⟩ false = none := by
  decide

/-- C15, amended: for every stream state and every scalar kind, a `Read` that
finds at the cursor a byte other than its tag returns `false` and leaves the
destination and the stream, hence the cursor, as they were; there is no bounds
check, so a `Read` with no byte left at the cursor, and a `Read` of a fixed-size
kind whose tag is at the cursor with fewer than `sizeof(K)` bytes behind it,
accesses the buffer outside its bounds and has no defined result. -/
theorem C15_read_without_bounds_check (host : ByteOrder) (s : DataStream) (a : Value) :
    (∀ tag : Byte, byteAt s.m_buffer s.m_position = some tag → tag.val ≠ a.kind.toNat →
      Read host s a = some (false, a, s)) ∧
    (s.m_buffer.length ≤ s.m_position → Read host s a = none) ∧
    (a.kind ≠ .STRING → byteAt s.m_buffer s.m_position = some a.kind.toByte →
      s.m_buffer.length < s.m_position + 1 + sizeofKind a.kind → Read host s a = none) :=
  ⟨fun tag hb hne => Read_tag_mismatch host s a tag hb hne,
   fun h => Read_at_end host s a h,
   fun hk hb h => Read_short_payload host s a hk hb h⟩

/-- C15 amended, at concrete inputs on a little-endian host: `Read(int32_t&)` on
the buffer `00 01` (a Bool) returns `false` with the cursor still 0; on the
empty buffer and on `02 01` it has no defined result. -/
theorem C15_read_without_bounds_check_witness :
    Read .LITTLE_ENDIAN ⟨[0, 1], 0, .BIG_ENDIAN⟩ (.int32 9)
      = some (false, .int32 9, ⟨[0, 1], 0, .BIG_ENDIAN⟩) ∧
    Read .LITTLE_ENDIAN ⟨[], 0, .BIG_ENDIAN⟩ (.int32 9) = none ∧
    Read .LITTLE_ENDIAN ⟨[2, 1], 0, .BIG_ENDIAN⟩ (.int32 9) = none :=
  ⟨(C15_read_without_bounds_check .LITTLE_ENDIAN ⟨[0, 1], 0, .BIG_ENDIAN⟩ (.int32 9)).1 0
      (by decide) (by decide),
   (C15_read_without_bounds_check .LITTLE_ENDIAN ⟨[], 0, .BIG_ENDIAN⟩ (.int32 9)).2.1
      (by decide),
   (C15_read_without_bounds_check .LITTLE_ENDIAN ⟨[2, 1], 0, .BIG_ENDIAN⟩ (.int32 9)).2.2
      (by decide) (by decide) (by decide)⟩

/-- C17 fails: `Read(int32_t&)` on the buffer `00 01` (a Bool) with the cursor
at 0 returns `false` with the cursor still at 0, not at 1; likewise
`Read(std::string&)` and `Read(bool&)` on an Int32. -/
theorem C17_cursor_after_mismatch_counterexample :
    ReadInt32 .LITTLE_ENDIAN ⟨[0, 1], 0, .BIG_ENDIAN⟩ 9
      = some (false, 9, ⟨[0, 1], 0, .BIG_ENDIAN⟩) ∧
    ReadString .LITTLE_ENDIAN ⟨[0, 1], 0, .BIG_ENDIAN⟩ [120]
      = some (false, [120], ⟨[0, 1], 0, .BIG_ENDIAN⟩) ∧
    ReadBool ⟨[2, 0, 0, 0, 7], 0, .BIG_ENDIAN⟩ true
      = some (false, true, ⟨[2, 0, 0, 0, 7], 0, .BIG_ENDIAN⟩) := by
  decide

/-- C17, amended: for every scalar kind and every stream state whose byte at
the cursor is not the tag of that kind, the `Read` returns `false` and the
cursor is exactly where it was: the mismatched tag is not consumed. -/
theorem C17_cursor_after_tag_mismatch (host : ByteOrder) (s : DataStream) (a : Value)
    (tag : Byte) (hb : byteAt s.m_buffer s.m_position = some tag)
    (hne : tag.val ≠ a.kind.toNat) :
    ∃ r : Bool × Value × DataStream, Read host s a = some r ∧ r.1 = false ∧
      r.2.2.m_position = s.m_position :=
  ⟨(false, a, s), Read_tag_mismatch host s a tag hb hne, rfl, rfl⟩

/-- C17 amended, at a concrete input: `Read(double&)` with the cursor at 2 on a
Char tag. -/
theorem C17_cursor_after_tag_mismatch_witness :
    ∃ r : Bool × Value × DataStream,
      Read .BIG_ENDIAN ⟨[0, 1, 1, 65], 2, .LITTLE_ENDIAN⟩ (.double 0) = some r ∧ r.1 = false ∧
      r.2.2.m_position = (⟨[0, 1, 1, 65], 2, .LITTLE_ENDIAN⟩ : DataStream).m_position :=
  C17_cursor_after_tag_mismatch .BIG_ENDIAN ⟨[0, 1, 1, 65], 2, .LITTLE_ENDIAN⟩ (.double 0) 1
    (by decide) (by decide)


theorem Forward_refl (s : DataStream) : Forward s s := ⟨Nat.le_refl _, rfl⟩

theorem Forward_trans (s s1 s2 : DataStream) (h1 : Forward s s1) (h2 : Forward s1 s2) :
    Forward s s2 :=
  ⟨Nat.le_trans h1.1 h2.1, h2.2.trans h1.2⟩

theorem Forward_step (s : DataStream) (n : Nat) :
    Forward s { s with m_position := s.m_position + n } :=
  ⟨Nat.le_add_right _ _, rfl⟩

theorem ReadScalar_forward (host : ByteOrder) (s s1 : DataStream) (t : DataType) (w r : Nat)
    (x : Option Nat) (h : ReadScalar host s t w r = some (x, s1)) : Forward s s1 := by
  unfold ReadScalar at h
  split at h
  · simp at h
  · split at h
    · simp only [Option.some.injEq, Prod.mk.injEq] at h
      rw [← h.2]
      exact Forward_refl s
    · split at h
      · simp at h
      · simp only [Option.some.injEq, Prod.mk.injEq] at h
        rw [← h.2]
        exact ⟨by simp only []; omega, rfl⟩

theorem ReadBool_forward : ForwardReader ReadBool := by
  intro s d r h
  unfold ReadBool at h
  split at h
  · simp at h
  · split at h
    · simp only [Option.some.injEq] at h
      rw [← h]
      exact Forward_refl s
    · split at h
      · simp at h
      · simp only [Option.some.injEq] at h
        rw [← h]
        exact Forward_step s 2

theorem ReadChar_forward : ForwardReader ReadChar := by
  intro s d r h
  unfold ReadChar at h
  split at h
  · simp at h
  · split at h
    · simp only [Option.some.injEq] at h
      rw [← h]
      exact Forward_refl s
    · split at h
      · simp at h
      · simp only [Option.some.injEq] at h
        rw [← h]
        exact Forward_step s 2

theorem ReadInt32_forward (host : ByteOrder) : ForwardReader (ReadInt32 host) := by
  intro s d r h
  unfold ReadInt32 at h
  split at h
  · simp at h
  · next s1 hs =>
    simp only [Option.some.injEq] at h
    rw [← h]
    exact ReadScalar_forward host s s1 _ _ _ _ hs
  · next x s1 hs =>
    simp only [Option.some.injEq] at h
    rw [← h]
    exact ReadScalar_forward host s s1 _ _ _ _ hs

theorem ReadInt64_forward (host : ByteOrder) : ForwardReader (ReadInt64 host) := by
  intro s d r h
  unfold ReadInt64 at h
  split at h
  · simp at h
  · next s1 hs =>
    simp only [Option.some.injEq] at h
    rw [← h]
    exact ReadScalar_forward host s s1 _ _ _ _ hs
  · next x s1 hs =>
    simp only [Option.some.injEq] at h
    rw [← h]
    exact ReadScalar_forward host s s1 _ _ _ _ hs

theorem ReadFloat_forward (host : ByteOrder) : ForwardReader (ReadFloat host) := by
  intro s d r h
  unfold ReadFloat at h
  split at h
  · simp at h
  · next s1 hs =>
    simp only [Option.some.injEq] at h
    rw [← h]
    exact ReadScalar_forward host s s1 _ _ _ _ hs
  · next x s1 hs =>
    simp only [Option.some.injEq] at h
    rw [← h]
    exact ReadScalar_forward host s s1 _ _ _ _ hs

theorem ReadDouble_forward (host : ByteOrder) : ForwardReader (ReadDouble host) := by
  intro s d r h
  unfold ReadDouble at h
  split at h
  · simp at h
  · next s1 hs =>
    simp only [Option.some.injEq] at h
    rw [← h]
    exact ReadScalar_forward host s s1 _ _ _ _ hs
  · next x s1 hs =>
    simp only [Option.some.injEq] at h
    rw [← h]
    exact ReadScalar_forward host s s1 _ _ _ _ hs

theorem ReadString_forward (host : ByteOrder) : ForwardReader (ReadString host) := by
  intro s d r h
  unfold ReadString at h
  split at h
  · simp at h
  · split at h
    · simp only [Option.some.injEq] at h
      rw [← h]
      exact Forward_refl s
    · split at h
      · simp at h
      · next ok len s1 hlen =>
        have h1 : Forward s s1 :=
          Forward_trans s _ s1 (Forward_step s 1) (ReadInt32_forward host _ _ _ hlen)
        split at h
        · simp only [Option.some.injEq] at h
          rw [← h]
          exact h1
        · split at h
          · simp at h
          · simp only [Option.some.injEq] at h
            rw [← h]
            exact Forward_trans s s1 _ h1 (Forward_step s1 _)

theorem Read_forward (host : ByteOrder) : ForwardReader (Read host) := by
  intro s d r h
  cases d with
  | bool b =>
    simp only [Read, Option.map_eq_some'] at h
    obtain ⟨r1, hr1, hr⟩ := h
    rw [← hr]
    exact ReadBool_forward s b r1 hr1
  | char c =>
    simp only [Read, Option.map_eq_some'] at h
    obtain ⟨r1, hr1, hr⟩ := h
    rw [← hr]
    exact ReadChar_forward s c r1 hr1
  | int32 v =>
    simp only [Read, Option.map_eq_some'] at h
    obtain ⟨r1, hr1, hr⟩ := h
    rw [← hr]
    exact ReadInt32_forward host s v r1 hr1
  | int64 v =>
    simp only [Read, Option.map_eq_some'] at h
    obtain ⟨r1, hr1, hr⟩ := h
    rw [← hr]
    exact ReadInt64_forward host s v r1 hr1
  | float bits =>
    simp only [Read, Option.map_eq_some'] at h
    obtain ⟨r1, hr1, hr⟩ := h
    rw [← hr]
    exact ReadFloat_forward host s bits r1 hr1
  | double bits =>
    simp only [Read, Option.map_eq_some'] at h
    obtain ⟨r1, hr1, hr⟩ := h
    rw [← hr]
    exact ReadDouble_forward host s bits r1 hr1
  | string str =>
    simp only [Read, Option.map_eq_some'] at h
    obtain ⟨r1, hr1, hr⟩ := h
    rw [← hr]
    exact ReadString_forward host s str r1 hr1

theorem Read_argsWith_forward {α : Type}
    (read : DataStream → α → Option (Bool × α × DataStream)) (hread : ForwardReader read) :
    ForwardReader (Read_argsWith read) := by
  intro s ds
  induction ds generalizing s with
  | nil =>
    intro r h
    simp only [Read_argsWith, Option.some.injEq] at h
    rw [← h]
    exact Forward_refl s
  | cons d ds ih =>
    intro r h
    simp only [Read_argsWith] at h
    cases hr : read s d with
    | none => simp [hr] at h
    | some r1 =>
      obtain ⟨ok, d1, s1⟩ := r1
      have h1 : Forward s s1 := hread s d _ hr
      cases ok with
      | false =>
        simp only [hr, Option.some.injEq] at h
        rw [← h]
        exact h1
      | true =>
        simp only [hr] at h
        cases hrest : Read_argsWith read s1 ds with
        | none => simp [hrest] at h
        | some r2 =>
          obtain ⟨ok2, ds2, s2⟩ := r2
          simp only [hrest, Option.some.injEq] at h
          rw [← h]
          exact Forward_trans s s1 s2 h1 (ih s1 _ hrest)

theorem ReadElems_forward {T C : Type}
    (readElem : DataStream → T → Option (Bool × T × DataStream)) (hread : ForwardReader readElem)
    (uninit : Nat → T) (insert : C → T → C) (n i : Nat) (s s1 : DataStream) (data data1 : C)
    (h : ReadElems readElem uninit insert i n s data = some (data1, s1)) : Forward s s1 := by
  induction n generalizing i s data with
  | zero =>
    simp only [ReadElems, Option.some.injEq, Prod.mk.injEq] at h
    rw [← h.2]
    exact Forward_refl s
  | succ n ih =>
    simp only [ReadElems] at h
    cases hr : readElem s (uninit i) with
    | none => simp [hr] at h
    | some r1 =>
      obtain ⟨ok, t, s2⟩ := r1
      simp only [hr] at h
      exact Forward_trans s s2 s1 (hread s _ _ hr) (ih _ _ _ h)

theorem ReadEntries_forward {V : Type}
    (readKey : DataStream → Int → Option (Bool × Int × DataStream))
    (readVal : DataStream → V → Option (Bool × V × DataStream))
    (hkey : ForwardReader readKey) (hval : ForwardReader readVal)
    (uninitKey : Nat → Int) (uninitVal : Nat → V) (n i : Nat) (s s1 : DataStream)
    (data data1 : List (Int × V))
    (h : ReadEntries readKey readVal uninitKey uninitVal i n s data = some (data1, s1)) :
    Forward s s1 := by
  induction n generalizing i s data with
  | zero =>
    simp only [ReadEntries, Option.some.injEq, Prod.mk.injEq] at h
    rw [← h.2]
    exact Forward_refl s
  | succ n ih =>
    simp only [ReadEntries] at h
    cases hk : readKey s (uninitKey i) with
    | none => simp [hk] at h
    | some r1 =>
      obtain ⟨ok, k, s2⟩ := r1
      simp only [hk] at h
      cases hv : readVal s2 (uninitVal i) with
      | none => simp [hv] at h
      | some r2 =>
        obtain ⟨ok2, v, s3⟩ := r2
        simp only [hv] at h
        exact Forward_trans s s2 s1 (hkey s _ _ hk)
          (Forward_trans s2 s3 s1 (hval s2 _ _ hv) (ih _ _ _ h))


theorem ReadVector_forward {T : Type} (host : ByteOrder)
    (readElem : DataStream → T → Option (Bool × T × DataStream)) (hread : ForwardReader readElem)
    (uninit : Nat → T) (zero : T) : ForwardReader (ReadVector host readElem uninit zero) := by
  intro s d r h
  unfold ReadVector at h
  split at h
  · simp at h
  · split at h
    · simp only [Option.some.injEq] at h
      rw [← h]
      exact Forward_refl s
    · split at h
      · simp at h
      · next ok len s1 hlen =>
        have h1 : Forward s s1 :=
          Forward_trans s _ s1 (Forward_step s 1) (ReadInt64_forward host _ _ _ hlen)
        split at h
        · simp at h
        · split at h
          · simp at h
          · next data1 s2 hloop =>
            simp only [Option.some.injEq] at h
            rw [← h]
            exact Forward_trans s s1 s2 h1
              (ReadElems_forward readElem hread uninit _ _ _ _ _ _ _ hloop)

theorem ReadList_forward {T : Type} (host : ByteOrder)
    (readElem : DataStream → T → Option (Bool × T × DataStream)) (hread : ForwardReader readElem)
    (uninit : Nat → T) : ForwardReader (ReadList host readElem uninit) := by
  intro s d r h
  unfold ReadList at h
  split at h
  · simp at h
  · split at h
    · simp only [Option.some.injEq] at h
      rw [← h]
      exact Forward_refl s
    · split at h
      · simp at h
      · next ok len s1 hlen =>
        have h1 : Forward s s1 :=
          Forward_trans s _ s1 (Forward_step s 1) (ReadInt64_forward host _ _ _ hlen)
        split at h
        · simp at h
        · next data1 s2 hloop =>
          simp only [Option.some.injEq] at h
          rw [← h]
          exact Forward_trans s s1 s2 h1
            (ReadElems_forward readElem hread uninit _ _ _ _ _ _ _ hloop)

theorem ReadSet_forward (host : ByteOrder)
    (readElem : DataStream → Int → Option (Bool × Int × DataStream))
    (hread : ForwardReader readElem) (uninit : Nat → Int) :
    ForwardReader (ReadSet host readElem uninit) := by
  intro s d r h
  unfold ReadSet at h
  split at h
  · simp at h
  · split at h
    · simp only [Option.some.injEq] at h
      rw [← h]
      exact Forward_refl s
    · split at h
      · simp at h
      · next ok len s1 hlen =>
        have h1 : Forward s s1 :=
          Forward_trans s _ s1 (Forward_step s 1) (ReadInt64_forward host _ _ _ hlen)
        split at h
        · simp at h
        · next data1 s2 hloop =>
          simp only [Option.some.injEq] at h
          rw [← h]
          exact Forward_trans s s1 s2 h1
            (ReadElems_forward readElem hread uninit _ _ _ _ _ _ _ hloop)

theorem ReadMap_forward {V : Type} (host : ByteOrder)
    (readKey : DataStream → Int → Option (Bool × Int × DataStream))
    (readVal : DataStream → V → Option (Bool × V × DataStream))
    (hkey : ForwardReader readKey) (hval : ForwardReader readVal)
    (uninitKey : Nat → Int) (uninitVal : Nat → V) :
    ForwardReader (ReadMap host readKey readVal uninitKey uninitVal) := by
  intro s d r h
  unfold ReadMap at h
  split at h
  · simp at h
  · split at h
    · simp only [Option.some.injEq] at h
      rw [← h]
      exact Forward_refl s
    · split at h
      · simp at h
      · next ok len s1 hlen =>
        have h1 : Forward s s1 :=
          Forward_trans s _ s1 (Forward_step s 1) (ReadInt64_forward host _ _ _ hlen)
        split at h
        · simp at h
        · next data1 s2 hloop =>
          simp only [Option.some.injEq] at h
          rw [← h]
          exact Forward_trans s s1 s2 h1
            (ReadEntries_forward readKey readVal hkey hval uninitKey uninitVal _ _ _ _ _ _ hloop)

/-- C19: every `Read` that returns, with `true` or with `false`, leaves the
buffer as it was and the cursor at or behind where it was: the `Read` of each
scalar kind, `Read_args`, and the vector, list, set and map readers over
elements (keys, values) whose own `Read` has this property, hence also over
nested containers. -/
theorem C19_cursor_monotone (host : ByteOrder) :
    ForwardReader (Read host) ∧
    ForwardReader (Read_args host) ∧
    (∀ (α : Type) (read : DataStream → α → Option (Bool × α × DataStream)),
      ForwardReader read → ForwardReader (Read_argsWith read)) ∧
    (∀ (T : Type) (readElem : DataStream → T → Option (Bool × T × DataStream))
        (uninit : Nat → T) (zero : T),
      ForwardReader readElem → ForwardReader (ReadVector host readElem uninit zero)) ∧
    (∀ (T : Type) (readElem : DataStream → T → Option (Bool × T × DataStream))
        (uninit : Nat → T),
      ForwardReader readElem → ForwardReader (ReadList host readElem uninit)) ∧
    (∀ (readElem : DataStream → Int → Option (Bool × Int × DataStream)) (uninit : Nat → Int),
      ForwardReader readElem → ForwardReader (ReadSet host readElem uninit)) ∧
    (∀ (V : Type) (readKey : DataStream → Int → Option (Bool × Int × DataStream))
        (readVal : DataStream → V → Option (Bool × V × DataStream))
        (uninitKey : Nat → Int) (uninitVal : Nat → V),
      ForwardReader readKey → ForwardReader readVal →
        ForwardReader (ReadMap host readKey readVal uninitKey uninitVal)) := by
  refine ⟨Read_forward host, ?_, fun α read h => Read_argsWith_forward read h,
    fun T readElem uninit zero h => ReadVector_forward host readElem h uninit zero,
    fun T readElem uninit h => ReadList_forward host readElem h uninit,
    fun readElem uninit h => ReadSet_forward host readElem h uninit,
    fun V readKey readVal uninitKey uninitVal hk hv =>
      ReadMap_forward host readKey readVal hk hv uninitKey uninitVal⟩
  intro s ds r h
  rw [Read_args_eq_with] at h
  exact Read_argsWith_forward (Read host) (Read_forward host) s ds r h

/-- C19, at concrete inputs on a big-endian host: a `Read(int64_t&)` that returns
`true` and moves the cursor from 0 to 9, and a `Read` of a vector of scalars
that returns `true` although its element `Read` fails, the cursor moving from 0
to 10. -/
theorem C19_cursor_monotone_witness :
    Forward ⟨[3, 0, 0, 0, 0, 0, 0, 0, 1], 0, .LITTLE_ENDIAN⟩
      ⟨[3, 0, 0, 0, 0, 0, 0, 0, 1], 9, .LITTLE_ENDIAN⟩ ∧
    Forward ⟨[7, 3, 0, 0, 0, 0, 0, 0, 0, 1, 0, 0, 0, 0, 7], 0, .LITTLE_ENDIAN⟩
      ⟨[7, 3, 0, 0, 0, 0, 0, 0, 0, 1, 0, 0, 0, 0, 7], 10, .LITTLE_ENDIAN⟩ :=
  ⟨(C19_cursor_monotone .BIG_ENDIAN).1
      ⟨[3, 0, 0, 0, 0, 0, 0, 0, 1], 0, .LITTLE_ENDIAN⟩ (.int64 0)
      (true, .int64 1, ⟨[3, 0, 0, 0, 0, 0, 0, 0, 1], 9, .LITTLE_ENDIAN⟩) (by decide),
   (C19_cursor_monotone .BIG_ENDIAN).2.2.2.1 Value (Read .BIG_ENDIAN) (fun _ => .int32 0)
      (.int32 0) (C19_cursor_monotone .BIG_ENDIAN).1
      ⟨[7, 3, 0, 0, 0, 0, 0, 0, 0, 1, 0, 0, 0, 0, 7], 0, .LITTLE_ENDIAN⟩ []
      (true, [.int32 0, .int32 0],
        ⟨[7, 3, 0, 0, 0, 0, 0, 0, 0, 1, 0, 0, 0, 0, 7], 10, .LITTLE_ENDIAN⟩) (by decide)⟩

/-- C20, on both hosts: on a little-endian host the byte at the lowest address
of `0x12345678` is `0x78` and `GetSystemByteOrder` returns `BIG_ENDIAN`; on a
big-endian host that byte is `0x12` and it returns `LITTLE_ENDIAN`.  So on a
little-endian host `Write(int32_t)` appends, after the tag, the object bytes in
reverse, and on a big-endian host it appends them as they are in memory. -/
theorem C20_byte_order_detection :
    objectBytes .LITTLE_ENDIAN 4 0x12345678 = [0x78, 0x56, 0x34, 0x12] ∧
    GetSystemByteOrder .LITTLE_ENDIAN = .BIG_ENDIAN ∧
    objectBytes .BIG_ENDIAN 4 0x12345678 = [0x12, 0x34, 0x56, 0x78] ∧
    GetSystemByteOrder .BIG_ENDIAN = .LITTLE_ENDIAN ∧
    (∀ v : Int,
      (WriteInt32 .LITTLE_ENDIAN (DataStream.new .LITTLE_ENDIAN) v).m_buffer
        = DataType.INT32.toByte :: (objectBytes .LITTLE_ENDIAN 4 (toUnsigned 32 v)).reverse) ∧
    (∀ v : Int,
      (WriteInt32 .BIG_ENDIAN (DataStream.new .BIG_ENDIAN) v).m_buffer
        = DataType.INT32.toByte :: objectBytes .BIG_ENDIAN 4 (toUnsigned 32 v)) := by
  refine ⟨by decide, by decide, by decide, by decide, fun v => ?_, fun v => ?_⟩
  · simp [WriteInt32, WriteScalar_eq, DataStream.new, GetSystemByteOrder_little, wireScalar,
      reverseFirst_full 4 _ (objectBytes_length .LITTLE_ENDIAN 4 (toUnsigned 32 v))]
  · simp [WriteInt32, WriteScalar_eq, DataStream.new, GetSystemByteOrder_big, wireScalar]


theorem ReserveLoop_unfold (target capacity : Nat) :
    ReserveLoop target capacity =
      if capacity < target then ReserveLoop target (ReserveStep capacity) else capacity := by
  rw [ReserveLoop]

theorem ReserveStep_gt (target capacity : Nat) (h : capacity < target) :
    target - ReserveStep capacity < target - capacity := by
  simp only [ReserveStep]
  split <;> omega

/-- The loop of `Reserve` is left after finitely many rounds: its result is an
iterate of the loop body, the loop condition holds before each of these rounds
and fails after the last. -/
theorem ReserveLoop_rounds (target : Nat) :
    ∀ (d capacity : Nat), target - capacity = d →
      ∃ rounds : Nat, ReserveLoop target capacity = ReserveStep^[rounds] capacity ∧
        (∀ i, i < rounds → ReserveStep^[i] capacity < target) ∧
        target ≤ ReserveStep^[rounds] capacity := by
  intro d
  induction d using Nat.strong_induction_on with
  | _ d ih =>
    intro capacity hd
    by_cases hlt : capacity < target
    · obtain ⟨rounds, h1, h2, h3⟩ :=
        ih (target - ReserveStep capacity) (hd ▸ ReserveStep_gt target capacity hlt)
          (ReserveStep capacity) rfl
      refine ⟨rounds + 1, ?_, ?_, ?_⟩
      · rw [ReserveLoop_unfold, if_pos hlt, h1, Function.iterate_succ_apply]
      · intro i hi
        cases i with
        | zero => simpa using hlt
        | succ i =>
          rw [Function.iterate_succ_apply]
          exact h2 i (by omega)
      · rw [Function.iterate_succ_apply]
        exact h3
    · refine ⟨0, ?_, ?_, ?_⟩
      · rw [ReserveLoop_unfold, if_neg hlt]
        rfl
      · intro i hi
        omega
      · simpa using Nat.le_of_not_lt hlt

/-- From a positive capacity the loop of `Reserve` returns the capacity times
the least power of two that reaches the target. -/
theorem ReserveLoop_doubling (target : Nat) :
    ∀ (d c : Nat), target - c = d → 0 < c →
      ∃ k : Nat, ReserveLoop target c = c * 2 ^ k ∧ target ≤ c * 2 ^ k ∧
        (∀ j, target ≤ c * 2 ^ j → k ≤ j) ∧ (c < target → c * 2 ^ k < 2 * target) := by
  intro d
  induction d using Nat.strong_induction_on with
  | _ d ih =>
    intro c hd hc
    by_cases hlt : c < target
    · have hstep : ReserveStep c = c * 2 := by
        simp only [ReserveStep]
        split <;> omega
      obtain ⟨k, h1, h2, h3, h4⟩ := ih (target - c * 2) (by omega) (c * 2) rfl (by omega)
      have e1 : ∀ j : Nat, c * 2 ^ (j + 1) = c * 2 * 2 ^ j := by
        intro j
        rw [pow_succ]
        ring
      refine ⟨k + 1, ?_, ?_, ?_, ?_⟩
      · rw [ReserveLoop_unfold, if_pos hlt, hstep, h1, e1]
      · rw [e1]
        exact h2
      · intro j hj
        cases j with
        | zero =>
          simp only [pow_zero, Nat.mul_one] at hj
          omega
        | succ j =>
          rw [e1] at hj
          have := h3 j hj
          omega
      · intro _
        rw [e1]
        by_cases h2c : c * 2 < target
        · exact h4 h2c
        · have hk : k ≤ 0 := h3 0 (by simp only [pow_zero, Nat.mul_one]; omega)
          have hk0 : k = 0 := by omega
          subst hk0
          simp only [pow_zero, Nat.mul_one]
          omega
    · refine ⟨0, ?_, ?_, fun j _ => Nat.zero_le j, fun h => absurd h hlt⟩
      · rw [ReserveLoop_unfold, if_neg hlt]
        simp
      · simp only [pow_zero, Nat.mul_one]
        omega

/-- C21: with unbounded integers, for every size, capacity and requested
length, the doubling loop of `Reserve` ends after finitely many rounds; when
`size + length` fits the capacity, `reserve` is not called; otherwise the
capacity requested is `c * 2^k` (`2^k` when the capacity `c` is 0) for the
least `k` with `c * 2^k ≥ size + length`, so it is at least `size + length` and,
when `c > 0`, less than `2 * (size + length)`. -/
theorem C21_reserve_geometric_growth (size capacity length : Nat) :
    (∃ rounds : Nat,
      ReserveLoop (size + length) capacity = ReserveStep^[rounds] capacity ∧
      (∀ i, i < rounds → ReserveStep^[i] capacity < size + length) ∧
      size + length ≤ ReserveStep^[rounds] capacity) ∧
    (size + length ≤ capacity → Reserve size capacity length = none) ∧
    (capacity < size + length →
      ∃ k : Nat, Reserve size capacity length = some (reserveBase capacity * 2 ^ k) ∧
        size + length ≤ reserveBase capacity * 2 ^ k ∧
        (∀ j, size + length ≤ reserveBase capacity * 2 ^ j → k ≤ j) ∧
        (0 < capacity → reserveBase capacity * 2 ^ k < 2 * (size + length))) := by
  refine ⟨ReserveLoop_rounds (size + length) _ capacity rfl, ?_, ?_⟩
  · intro h
    simp [Reserve, Nat.not_lt.mpr h]
  · intro h
    by_cases hc : capacity = 0
    · subst hc
      obtain ⟨k, h1, h2, h3, _⟩ := ReserveLoop_doubling (size + length) _ 1 rfl (by omega)
      refine ⟨k, ?_, ?_, ?_, fun h0 => absurd h0 (by omega)⟩
      · have hloop : ReserveLoop (size + length) 0 = ReserveLoop (size + length) 1 := by
          rw [ReserveLoop_unfold, if_pos h]
          rfl
        simp only [Reserve, gt_iff_lt, h, if_true, hloop, h1, reserveBase]
      · simpa [reserveBase] using h2
      · intro j hj
        exact h3 j (by simpa [reserveBase] using hj)
    · have hpos : 0 < capacity := Nat.pos_of_ne_zero hc
      obtain ⟨k, h1, h2, h3, h4⟩ :=
        ReserveLoop_doubling (size + length) _ capacity rfl hpos
      have hb : reserveBase capacity = capacity := by simp [reserveBase, hc]
      refine ⟨k, ?_, ?_, ?_, fun _ => ?_⟩
      · simp only [Reserve, gt_iff_lt, h, if_true, h1, hb]
      · rw [hb]
        exact h2
      · intro j hj
        rw [hb] at hj
        exact h3 j hj
      · rw [hb]
        exact h4 h

/-- C21, at a concrete input: size 10, capacity 3 and length 7 give the request
`3 * 2^3 = 24`; size 6, capacity 8 and length 2 give no request. -/
theorem C21_reserve_geometric_growth_witness :
    Reserve 6 8 2 = none ∧
    ∃ k : Nat, Reserve 10 3 7 = some (reserveBase 3 * 2 ^ k) ∧
      10 + 7 ≤ reserveBase 3 * 2 ^ k ∧
      (∀ j, 10 + 7 ≤ reserveBase 3 * 2 ^ j → k ≤ j) ∧
      (0 < 3 → reserveBase 3 * 2 ^ k < 2 * (10 + 7)) :=
  ⟨(C21_reserve_geometric_growth 6 8 2).2.1 (by decide),
   (C21_reserve_geometric_growth 10 3 7).2.2 (by decide)⟩


/-- A byte read through `byteAt` lies below the length of the buffer. -/
theorem byteAt_some_lt (buf : List Byte) (i : Nat) (b : Byte) (h : byteAt buf i = some b) :
    i < buf.length := by
  by_contra hge
  rw [byteAt_none buf i (Nat.le_of_not_lt hge)] at h
  exact Option.noConfusion h

/-- Bytes read through `bytesAt` all lie below the length of the buffer. -/
theorem bytesAt_some_le (buf bs : List Byte) (i n : Nat) (h : bytesAt buf i n = some bs) :
    i + n ≤ buf.length := by
  by_contra hgt
  rw [bytesAt_none buf i n (Nat.lt_of_not_le hgt)] at h
  exact Option.noConfusion h

/-- Reading a multi-byte scalar at the place where it was written succeeds and
moves the cursor behind it, whatever width the reader reverses. -/
theorem ReadScalar_frame_any (host order : ByteOrder) (t : DataType) (w r x : Nat)
    (pre rest : List Byte) :
    ∃ y : Nat,
      ReadScalar host ⟨pre ++ (t.toByte :: wireScalar host order w x) ++ rest, pre.length, order⟩
          t w r =
        some (some y,
          ⟨pre ++ (t.toByte :: wireScalar host order w x) ++ rest, pre.length + 1 + w,
            order⟩) := by
  have hb : byteAt (pre ++ (t.toByte :: wireScalar host order w x) ++ rest) pre.length
      = some t.toByte := by
    simpa using byteAt_append pre (wireScalar host order w x ++ rest) t.toByte
  have hbs : bytesAt (pre ++ (t.toByte :: wireScalar host order w x) ++ rest) (pre.length + 1) w
      = some (wireScalar host order w x) := by
    have := bytesAt_append_succ pre (wireScalar host order w x) rest t.toByte
    rw [wireScalar_length] at this
    simpa using this
  refine ⟨objectValue host (if order = .BIG_ENDIAN then
    reverseFirst r (wireScalar host order w x) else wireScalar host order w x), ?_⟩
  simp only [ReadScalar, hb, hbs, toByte_toNat, ne_eq, not_true_eq_false, ite_false]

theorem Write_eq_encode_safe (host : ByteOrder) (s : DataStream) (v : Value)
    (h : v.isSafeField) :
    Write host s v = some { s with m_buffer := s.m_buffer ++ encode host s.m_byteOrder v } := by
  cases v with
  | bool b => exact Write_eq_encode host s _ trivial
  | char c => exact Write_eq_encode host s _ trivial
  | int32 v => simp [Write, WriteInt32_eq]
  | int64 v => simp [Write, WriteInt64_eq]
  | float bits => exact h.elim
  | double bits => exact h.elim
  | string str => exact Write_eq_encode host s _ h.2

theorem Write_args_eq_safe (host : ByteOrder) (fields : List Value)
    (hf : ∀ f ∈ fields, f.isSafeField) (s : DataStream) :
    Write_args host s fields =
      some { s with m_buffer := s.m_buffer ++ encodeArgs host s.m_byteOrder fields } := by
  induction fields generalizing s with
  | nil => simp [Write_args, encodeArgs]
  | cons f fs ih =>
    have hf1 : f.isSafeField := hf f (List.mem_cons_self f fs)
    have hfs : ∀ g ∈ fs, g.isSafeField := fun g hg => hf g (List.mem_cons_of_mem f hg)
    simp [Write_args, Write_eq_encode_safe host s f hf1, ih hfs, encodeArgs]

/-- Reading a safe field at the place where it was written, into a destination
of the same static type, returns `true` and moves the cursor behind the
field. -/
theorem Read_frame_safe (host order : ByteOrder) (v d : Value) (hv : v.isSafeField)
    (hk : d.kind = v.kind) (pre rest : List Byte) :
    ∃ v1 : Value,
      Read host ⟨pre ++ encode host order v ++ rest, pre.length, order⟩ d =
        some (true, v1,
          ⟨pre ++ encode host order v ++ rest, pre.length + (encode host order v).length,
            order⟩) := by
  cases v with
  | bool b => exact ⟨_, Read_frame host order (.bool b) d trivial hk pre rest⟩
  | char c => exact ⟨_, Read_frame host order (.char c) d trivial hk pre rest⟩
  | int32 v =>
    cases d <;> simp [Value.kind] at hk
    obtain ⟨y, hy⟩ := ReadScalar_frame_any host order .INT32 4 4 (toUnsigned 32 v) pre rest
    refine ⟨.int32 (toSigned 32 y), ?_⟩
    simp only [Read, ReadInt32, encode, hy, Option.map_some', List.length_cons,
      wireScalar_length]
  | int64 v =>
    cases d <;> simp [Value.kind] at hk
    obtain ⟨y, hy⟩ := ReadScalar_frame_any host order .INT64 8 4 (toUnsigned 64 v) pre rest
    refine ⟨.int64 (toSigned 64 y), ?_⟩
    simp only [Read, ReadInt64, encode, hy, Option.map_some', List.length_cons,
      wireScalar_length]
  | float bits => exact hv.elim
  | double bits => exact hv.elim
  | string str => exact ⟨_, Read_frame host order (.string str) d hv hk pre rest⟩

theorem Read_args_frame_safe (host order : ByteOrder) (fields dests : List Value)
    (hf : ∀ f ∈ fields, f.isSafeField)
    (hk : dests.map Value.kind = fields.map Value.kind) (pre rest : List Byte) :
    ∃ dests1 : List Value,
      Read_args host ⟨pre ++ encodeArgs host order fields ++ rest, pre.length, order⟩ dests =
        some (true, dests1,
          ⟨pre ++ encodeArgs host order fields ++ rest,
            pre.length + (encodeArgs host order fields).length, order⟩) := by
  induction fields generalizing dests pre with
  | nil =>
    cases dests with
    | nil => exact ⟨[], by simp [Read_args, encodeArgs]⟩
    | cons d ds => simp at hk
  | cons f fs ih =>
    cases dests with
    | nil => simp at hk
    | cons d ds =>
      have hf1 : f.isSafeField := hf f (List.mem_cons_self f fs)
      have hfs : ∀ g ∈ fs, g.isSafeField := fun g hg => hf g (List.mem_cons_of_mem f hg)
      simp only [List.map_cons, List.cons.injEq] at hk
      obtain ⟨v1, h1⟩ :=
        Read_frame_safe host order f d hf1 hk.1 pre (encodeArgs host order fs ++ rest)
      obtain ⟨ds1, h2⟩ := ih ds hfs hk.2 (pre ++ encode host order f)
      have hbuf : pre ++ encodeArgs host order (f :: fs) ++ rest =
          pre ++ encode host order f ++ (encodeArgs host order fs ++ rest) := by
        simp [encodeArgs]
      have hbuf2 : pre ++ encode host order f ++ encodeArgs host order fs ++ rest =
          pre ++ encode host order f ++ (encodeArgs host order fs ++ rest) := by
        simp
      rw [hbuf2, List.length_append] at h2
      refine ⟨v1 :: ds1, ?_⟩
      rw [hbuf]
      simp only [Read_args, h1, h2]
      simp [encodeArgs, Nat.add_assoc]


/-! ## Facts about `Reserve` on `int` and the writers that use it -/

theorem ReserveLoopInt_unfold (target capacity : Nat) :
    ReserveLoopInt target capacity =
      if capacity < target then
        if INT_MAX < ReserveStep capacity then none
        else ReserveLoopInt target (ReserveStep capacity)
      else some capacity := by
  rw [ReserveLoopInt]

theorem ReserveLoop_of_le (target capacity : Nat) (h : target ≤ capacity) :
    ReserveLoop target capacity = capacity := by
  rw [ReserveLoop_unfold, if_neg (Nat.not_lt.mpr h)]

theorem ReserveLoop_of_lt (target capacity : Nat) (h : capacity < target) :
    ReserveLoop target capacity = ReserveLoop target (ReserveStep capacity) := by
  rw [ReserveLoop_unfold, if_pos h]

theorem ReserveStep_lt (capacity bound : Nat) (h : capacity < bound) :
    ReserveStep capacity < 2 * bound := by
  simp only [ReserveStep]
  split <;> omega

/-- Up to a target of `2^30` no doubling overflows, and the loop on `int` returns
what the loop on unbounded integers returns. -/
theorem ReserveLoopInt_ok (target : Nat) (ht : target ≤ 2 ^ 30) :
    ∀ (d capacity : Nat), target - capacity = d →
      ReserveLoopInt target capacity = some (ReserveLoop target capacity) := by
  intro d
  induction d using Nat.strong_induction_on with
  | _ d ih =>
    intro capacity hd
    by_cases hlt : capacity < target
    · have hstep : ¬ INT_MAX < ReserveStep capacity := by
        have := ReserveStep_lt capacity target hlt
        simp only [INT_MAX]
        norm_num at ht ⊢
        omega
      rw [ReserveLoopInt_unfold, if_pos hlt, if_neg hstep, ReserveLoop_of_lt _ _ hlt]
      exact ih _ (hd ▸ ReserveStep_gt target capacity hlt) _ rfl
    · rw [ReserveLoopInt_unfold, if_neg hlt, ReserveLoop_of_le _ _ (Nat.le_of_not_lt hlt)]

theorem ReserveInt_ok (size capacity length : Nat) (h : size + length ≤ 2 ^ 30) :
    ReserveInt size capacity length = some (ReserveLoop (size + length) capacity) := by
  have h1 : ¬ INT_MAX < size + length := by
    simp only [INT_MAX]
    norm_num at h ⊢
    omega
  unfold ReserveInt
  rw [if_neg h1]
  split
  · exact ReserveLoopInt_ok _ h _ _ rfl
  · next hge => rw [ReserveLoop_of_le _ _ (Nat.le_of_not_lt hge)]

/-- Raising the target continues the same chain of doublings. -/
theorem ReserveLoop_chain (t1 t2 : Nat) (h : t1 ≤ t2) :
    ∀ (d capacity : Nat), t1 - capacity = d →
      ReserveLoop t2 (ReserveLoop t1 capacity) = ReserveLoop t2 capacity := by
  intro d
  induction d using Nat.strong_induction_on with
  | _ d ih =>
    intro capacity hd
    by_cases hlt : capacity < t1
    · rw [ReserveLoop_of_lt t1 _ hlt, ReserveLoop_of_lt t2 capacity (by omega)]
      exact ih _ (hd ▸ ReserveStep_gt t1 capacity hlt) _ rfl
    · rw [ReserveLoop_of_le t1 _ (Nat.le_of_not_lt hlt)]

theorem CapStream.append_append (sc : CapStream) (e1 e2 : List Byte) :
    (sc.append e1).append e2 = sc.append (e1 ++ e2) := by
  simp only [CapStream.append, List.length_append, List.append_assoc, Nat.add_assoc]
  rw [ReserveLoop_chain _ _ (by omega) _ _ rfl]

theorem CapStream.new_append_nil (host : ByteOrder) :
    (CapStream.new host).append [] = CapStream.new host := by
  simp [CapStream.append, CapStream.new, DataStream.new, ReserveLoop_of_le]

/-- A raw write that keeps the buffer within `2^30` bytes completes and
appends. -/
theorem WriteRawCap_exact (sc : CapStream) (data : List Byte) (length : Nat)
    (hd : data.length = length) (h : sc.stream.m_buffer.length + length ≤ 2 ^ 30) :
    WriteRawCap sc data length = some (sc.append data) := by
  subst hd
  simp [WriteRawCap, ReserveInt_ok _ _ _ h, CapStream.append, WriteRaw]

theorem append_length (sc : CapStream) (e : List Byte) :
    (sc.append e).stream.m_buffer.length = sc.stream.m_buffer.length + e.length := by
  simp [CapStream.append]

theorem append_order (sc : CapStream) (e : List Byte) :
    (sc.append e).stream.m_byteOrder = sc.stream.m_byteOrder := rfl

theorem WriteTagCap_exact (sc : CapStream) (t : DataType)
    (h : sc.stream.m_buffer.length + 1 ≤ 2 ^ 30) :
    WriteTagCap sc t = some (sc.append [t.toByte]) :=
  WriteRawCap_exact sc [t.toByte] 1 rfl h

theorem WriteBoolCap_exact (sc : CapStream) (b : Bool)
    (h : sc.stream.m_buffer.length + 2 ≤ 2 ^ 30) :
    WriteBoolCap sc b = some (sc.append [DataType.BOOL.toByte, if b then 1 else 0]) := by
  simp only [WriteBoolCap, WriteTagCap_exact sc .BOOL (by omega)]
  rw [WriteRawCap_exact _ [if b then 1 else 0] 1 rfl (by rw [append_length]; simpa using h),
    CapStream.append_append]
  rfl

theorem WriteCharCap_exact (sc : CapStream) (c : Byte)
    (h : sc.stream.m_buffer.length + 2 ≤ 2 ^ 30) :
    WriteCharCap sc c = some (sc.append [DataType.CHAR.toByte, c]) := by
  simp only [WriteCharCap, WriteTagCap_exact sc .CHAR (by omega)]
  rw [WriteRawCap_exact _ [c] 1 rfl (by rw [append_length]; simpa using h),
    CapStream.append_append]
  rfl

theorem WriteScalarCap_exact (host : ByteOrder) (sc : CapStream) (t : DataType) (w x : Nat)
    (h : sc.stream.m_buffer.length + (1 + w) ≤ 2 ^ 30) :
    WriteScalarCap host sc t w x =
      some (sc.append (t.toByte :: wireScalar host sc.stream.m_byteOrder w x)) := by
  have hl := wireScalar_length host sc.stream.m_byteOrder w x
  simp only [WriteScalarCap, WriteTagCap_exact sc t (by omega)]
  have hw : WriteRawCap (sc.append [t.toByte])
      (wireScalar host sc.stream.m_byteOrder w x) w
      = some ((sc.append [t.toByte]).append (wireScalar host sc.stream.m_byteOrder w x)) :=
    WriteRawCap_exact _ _ w hl (by rw [append_length]; simp; omega)
  rw [CapStream.append_append] at hw
  simpa [wireScalar] using hw


theorem encode_length (host order : ByteOrder) (v : Value) :
    (encode host order v).length = v.wireSize := by
  cases v <;> simp [encode, Value.wireSize, wireScalar_length]
  omega

theorem encodeArgs_length (host order : ByteOrder) (fields : List Value) :
    (encodeArgs host order fields).length = (fields.map Value.wireSize).sum := by
  induction fields with
  | nil => rfl
  | cons f fs ih => simp [encodeArgs, encode_length, ih]

theorem WriteStringCap_exact (host : ByteOrder) (sc : CapStream) (str : List Byte)
    (h : sc.stream.m_buffer.length + (6 + str.length) ≤ 2 ^ 30) :
    WriteStringCap host sc str =
      some (sc.append (encode host sc.stream.m_byteOrder (.string str))) := by
  have hl : str.length < 2 ^ 31 := by
    norm_num at h ⊢
    omega
  have hnn : ¬ ((str.length : Int) < 0) := by omega
  have h2 : WriteInt32Cap host (sc.append [DataType.STRING.toByte]) (str.length : Int)
      = some ((sc.append [DataType.STRING.toByte]).append
          (DataType.INT32.toByte ::
            wireScalar host sc.stream.m_byteOrder 4 (toUnsigned 32 (str.length : Int)))) :=
    WriteScalarCap_exact host _ .INT32 4 _ (by rw [append_length]; simp; omega)
  simp only [WriteStringCap, WriteTagCap_exact sc .STRING (by omega), toSigned_length _ hl, h2,
    hnn, if_false, Int.toNat_ofNat, CapStream.append_append]
  rw [WriteRawCap_exact _ str str.length rfl (by
      rw [append_length]
      simp [wireScalar_length]
      omega), CapStream.append_append]
  simp [encode]

theorem WriteCap_exact (host : ByteOrder) (sc : CapStream) (v : Value)
    (h : sc.stream.m_buffer.length + v.wireSize ≤ 2 ^ 30) :
    WriteCap host sc v = some (sc.append (encode host sc.stream.m_byteOrder v)) := by
  cases v with
  | bool b => exact WriteBoolCap_exact sc b h
  | char c => exact WriteCharCap_exact sc c h
  | int32 v => exact WriteScalarCap_exact host sc .INT32 4 _ h
  | int64 v => exact WriteScalarCap_exact host sc .INT64 8 _ h
  | float bits => exact WriteScalarCap_exact host sc .FLOAT 4 _ h
  | double bits => exact WriteScalarCap_exact host sc .DOUBLE 8 _ h
  | string str => exact WriteStringCap_exact host sc str h

/-- A field list whose encodings keep the buffer within `2^30` bytes is written
completely, field after field. -/
theorem Write_argsCap_ok (host : ByteOrder) (fields : List Value) (sc : CapStream)
    (h : sc.stream.m_buffer.length + (fields.map Value.wireSize).sum ≤ 2 ^ 30) :
    ∃ capacity : Nat, Write_argsCap host sc fields =
      some ⟨{ sc.stream with
        m_buffer := sc.stream.m_buffer ++ encodeArgs host sc.stream.m_byteOrder fields },
        capacity⟩ := by
  induction fields generalizing sc with
  | nil => exact ⟨sc.m_capacity, by simp [Write_argsCap, encodeArgs]⟩
  | cons f fs ih =>
    simp only [List.map_cons, List.sum_cons] at h
    have h1 := WriteCap_exact host sc f (by omega)
    obtain ⟨capacity, h2⟩ := ih (sc.append (encode host sc.stream.m_byteOrder f)) (by
      rw [append_length, encode_length]
      omega)
    refine ⟨capacity, ?_⟩
    simp only [Write_argsCap, h1, h2]
    simp [CapStream.append, encodeArgs]

/-- From a capacity `2^k` of at most `2^30`, a target above `2^30` makes the
doubling overflow `int`. -/
theorem ReserveLoopInt_overflow (target : Nat) (ht : 2 ^ 30 < target) :
    ∀ (d k : Nat), 30 - k = d → k ≤ 30 → ReserveLoopInt target (2 ^ k) = none := by
  intro d
  induction d using Nat.strong_induction_on with
  | _ d ih =>
    intro k hd hk
    have hlt : 2 ^ k < target :=
      Nat.lt_of_le_of_lt (Nat.pow_le_pow_right (by decide) hk) ht
    have hpos : 0 < 2 ^ k := by positivity
    have hstep : ReserveStep (2 ^ k) = 2 ^ (k + 1) := by
      simp only [ReserveStep, pow_succ]
      split <;> omega
    rw [ReserveLoopInt_unfold, if_pos hlt, hstep]
    by_cases hk30 : k = 30
    · subst hk30
      simp [INT_MAX]
    · have hle : 2 ^ (k + 1) ≤ 2 ^ 30 := Nat.pow_le_pow_right (by decide) (by omega)
      have hno : ¬ INT_MAX < 2 ^ (k + 1) := by
        simp only [INT_MAX]
        norm_num at hle ⊢
        omega
      rw [if_neg hno]
      exact ih (30 - (k + 1)) (by omega) (k + 1) rfl (by omega)

/-- The capacity that a fresh stream (capacity 0) has reached at a size between
1 and `2^30` is a power of two of at most `2^30`. -/
theorem ReserveLoop_zero_pow (size : Nat) (h1 : 0 < size) (h2 : size ≤ 2 ^ 30) :
    ∃ k : Nat, k ≤ 30 ∧ ReserveLoop size 0 = 2 ^ k := by
  obtain ⟨k, hk1, _, hk3, _⟩ := ReserveLoop_doubling size _ 1 rfl (by decide)
  refine ⟨k, hk3 30 (by simpa using h2), ?_⟩
  rw [ReserveLoop_of_lt size 0 h1]
  simpa [ReserveStep] using hk1

/-- On a stream that started empty with capacity 0 and holds between 1 and
`2^30` bytes, a raw write that takes the buffer beyond `2^30` bytes does not
complete. -/
theorem WriteRawCap_overflow (host : ByteOrder) (e : List Byte) (data : List Byte)
    (length : Nat) (h1 : 0 < e.length) (h2 : e.length ≤ 2 ^ 30)
    (h3 : 2 ^ 30 < e.length + length) :
    WriteRawCap ((CapStream.new host).append e) data length = none := by
  obtain ⟨k, hk, hcap⟩ := ReserveLoop_zero_pow e.length h1 h2
  have hlen : ((CapStream.new host).append e).stream.m_buffer.length = e.length := by
    simp [CapStream.append, CapStream.new, DataStream.new]
  have hc : ((CapStream.new host).append e).m_capacity = 2 ^ k := by
    simp [CapStream.append, CapStream.new, DataStream.new, hcap]
  have hlt : 2 ^ k < e.length + length :=
    Nat.lt_of_le_of_lt (Nat.pow_le_pow_right (by decide) hk) h3
  have hr : ReserveInt e.length (2 ^ k) length = none := by
    unfold ReserveInt
    split
    · rfl
    · exact ReserveLoopInt_overflow _ h3 _ k rfl hk
  simp only [WriteRawCap, hlen, hc, hr]

/-- On a stream that started empty with capacity 0, `Write` of a string that
takes the buffer beyond `2^30` bytes does not complete. -/
theorem WriteStringCap_overflow (host : ByteOrder) (e str : List Byte)
    (hl : str.length < 2 ^ 31) (h2 : e.length + 6 ≤ 2 ^ 30)
    (h3 : 2 ^ 30 < e.length + 6 + str.length) :
    WriteStringCap host ((CapStream.new host).append e) str = none := by
  have hlen0 : (CapStream.new host).stream.m_buffer.length = 0 := rfl
  have h1 : WriteTagCap ((CapStream.new host).append e) .STRING
      = some ((CapStream.new host).append (e ++ [DataType.STRING.toByte])) := by
    rw [WriteTagCap_exact _ _ (by rw [append_length, hlen0]; omega), CapStream.append_append]
  have hi : WriteInt32Cap host ((CapStream.new host).append (e ++ [DataType.STRING.toByte]))
        (str.length : Int)
      = some ((CapStream.new host).append (e ++ [DataType.STRING.toByte] ++
          (DataType.INT32.toByte ::
            wireScalar host (GetSystemByteOrder host) 4 (toUnsigned 32 (str.length : Int))))) := by
    unfold WriteInt32Cap
    rw [WriteScalarCap_exact _ _ _ _ _ (by
        rw [append_length, hlen0]
        simp
        omega), CapStream.append_append]
    rfl
  have hnn : ¬ ((str.length : Int) < 0) := by omega
  have h4 := WriteRawCap_overflow host (e ++ [DataType.STRING.toByte] ++
      (DataType.INT32.toByte ::
        wireScalar host (GetSystemByteOrder host) 4 (toUnsigned 32 (str.length : Int))))
    str str.length (by simp) (by simp [wireScalar_length]; omega)
    (by simp [wireScalar_length]; omega)
  simp only [WriteStringCap, h1, toSigned_length _ hl, hi, hnn, if_false, Int.toNat_ofNat, h4]


/-! ## The two families of writers agree

A writer with `Reserve` that completes leaves the stream that the plain writer
computes: the plain writers describe exactly the runs that complete. -/

theorem WriteRawCap_stream (sc sc1 : CapStream) (data : List Byte) (length : Nat)
    (h : WriteRawCap sc data length = some sc1) :
    sc1.stream = WriteRaw sc.stream data length := by
  unfold WriteRawCap at h
  split at h
  · simp at h
  · simp only [Option.some.injEq] at h
    rw [← h]

theorem WriteTagCap_stream (sc sc1 : CapStream) (t : DataType)
    (h : WriteTagCap sc t = some sc1) : sc1.stream = WriteTag sc.stream t :=
  WriteRawCap_stream sc sc1 _ _ h

theorem WriteBoolCap_stream (sc sc1 : CapStream) (b : Bool)
    (h : WriteBoolCap sc b = some sc1) : sc1.stream = WriteBool sc.stream b := by
  unfold WriteBoolCap at h
  split at h
  · simp at h
  · next sc0 h0 =>
    rw [WriteRawCap_stream _ _ _ _ h, WriteTagCap_stream _ _ _ h0]
    rfl

theorem WriteCharCap_stream (sc sc1 : CapStream) (c : Byte)
    (h : WriteCharCap sc c = some sc1) : sc1.stream = WriteChar sc.stream c := by
  unfold WriteCharCap at h
  split at h
  · simp at h
  · next sc0 h0 =>
    rw [WriteRawCap_stream _ _ _ _ h, WriteTagCap_stream _ _ _ h0]
    rfl

theorem WriteScalarCap_stream (host : ByteOrder) (sc sc1 : CapStream) (t : DataType)
    (w x : Nat) (h : WriteScalarCap host sc t w x = some sc1) :
    sc1.stream = WriteScalar host sc.stream t w x := by
  unfold WriteScalarCap at h
  split at h
  · simp at h
  · next sc0 h0 =>
    rw [WriteRawCap_stream _ _ _ _ h, WriteTagCap_stream _ _ _ h0]
    rfl

theorem WriteStringCap_stream (host : ByteOrder) (sc sc1 : CapStream) (str : List Byte)
    (h : WriteStringCap host sc str = some sc1) :
    WriteString host sc.stream str = some sc1.stream := by
  unfold WriteStringCap at h
  split at h
  · simp at h
  · next sc0 h0 =>
    simp only [] at h
    split at h
    · simp at h
    · next sc2 h2 =>
      split at h
      · simp at h
      · next hneg =>
        have e0 := WriteTagCap_stream _ _ _ h0
        have e2 := WriteScalarCap_stream host _ _ _ _ _ h2
        have e3 := WriteRawCap_stream _ _ _ _ h
        simp only [WriteString, hneg, if_false, Option.some.injEq]
        rw [e3, e2, e0]
        rfl

/-- Whenever a `Write` with `Reserve` completes, the plain `Write` returns the
same stream. -/
theorem WriteCap_stream (host : ByteOrder) (sc sc1 : CapStream) (v : Value)
    (h : WriteCap host sc v = some sc1) : Write host sc.stream v = some sc1.stream := by
  cases v with
  | bool b => simp only [Write, WriteBoolCap_stream sc sc1 b h]
  | char c => simp only [Write, WriteCharCap_stream sc sc1 c h]
  | int32 v => simp only [Write, WriteInt32, WriteScalarCap_stream host sc sc1 _ _ _ h]
  | int64 v => simp only [Write, WriteInt64, WriteScalarCap_stream host sc sc1 _ _ _ h]
  | float bits => simp only [Write, WriteFloat, WriteScalarCap_stream host sc sc1 _ _ _ h]
  | double bits => simp only [Write, WriteDouble, WriteScalarCap_stream host sc sc1 _ _ _ h]
  | string str => exact WriteStringCap_stream host sc sc1 str h


theorem WriteStringCap_fresh_overflow (host : ByteOrder) (str : List Byte)
    (hl : str.length < 2 ^ 31) (h : 2 ^ 30 < 6 + str.length) :
    WriteStringCap host (CapStream.new host) str = none := by
  have := WriteStringCap_overflow host [] str hl (by simp) (by simpa using h)
  rwa [CapStream.new_append_nil] at this

/-- On a stream that started empty with capacity 0 and holds exactly `2^30`
bytes, no tag write completes. -/
theorem WriteTagCap_full (host : ByteOrder) (e : List Byte) (t : DataType)
    (he : e.length = 2 ^ 30) : WriteTagCap ((CapStream.new host).append e) t = none :=
  WriteRawCap_overflow host e [t.toByte] 1 (by rw [he]; positivity) (by omega) (by omega)

theorem WriteCap_full (host : ByteOrder) (e : List Byte) (v : Value) (he : e.length = 2 ^ 30) :
    WriteCap host ((CapStream.new host).append e) v = none := by
  cases v <;>
    simp [WriteCap, WriteBoolCap, WriteCharCap, WriteInt32Cap, WriteInt64Cap, WriteFloatCap,
      WriteDoubleCap, WriteScalarCap, WriteStringCap, WriteTagCap_full host e _ he]

theorem WriteCap_string (host : ByteOrder) (sc : CapStream) (str : List Byte) :
    WriteCap host sc (.string str) = WriteStringCap host sc str := rfl

theorem Write_argsCap_cons_none (host : ByteOrder) (sc : CapStream) (v : Value)
    (vs : List Value) (h : WriteCap host sc v = none) :
    Write_argsCap host sc (v :: vs) = none := by
  simp only [Write_argsCap, h]

theorem Write_argsCap_cons_some (host : ByteOrder) (sc sc1 : CapStream) (v : Value)
    (vs : List Value) (h : WriteCap host sc v = some sc1) :
    Write_argsCap host sc (v :: vs) = Write_argsCap host sc1 vs := by
  simp only [Write_argsCap, h]

/-! ## The claims about writes, with `Reserve` on `int` -/

/-- C3 fails in two places.  For the empty string, on either host, `Write("")`
appends the tag and the length 0, and `Read(std::string&)` then returns `false`
and leaves the destination (here `"x"`) as it was.  For a string of `2^30 - 5`
bytes, whose length fits in a signed 32-bit integer, `Write` on a freshly
constructed stream does not complete on either host: the buffer would take
`2^30 + 1` bytes and `capacity *= 2` in `Reserve` overflows `int`. -/
theorem C3_string_roundtrip_counterexample :
    (WriteStringCap .LITTLE_ENDIAN (CapStream.new .LITTLE_ENDIAN) []).map CapStream.stream
        = some ⟨[6, 2, 0, 0, 0, 0], 0, .BIG_ENDIAN⟩ ∧
    ReadString .LITTLE_ENDIAN ⟨[6, 2, 0, 0, 0, 0], 0, .BIG_ENDIAN⟩ [120]
        = some (false, [120], ⟨[6, 2, 0, 0, 0, 0], 6, .BIG_ENDIAN⟩) ∧
    (WriteStringCap .BIG_ENDIAN (CapStream.new .BIG_ENDIAN) []).map CapStream.stream
        = some ⟨[6, 2, 0, 0, 0, 0], 0, .LITTLE_ENDIAN⟩ ∧
    ReadString .BIG_ENDIAN ⟨[6, 2, 0, 0, 0, 0], 0, .LITTLE_ENDIAN⟩ [120]
        = some (false, [120], ⟨[6, 2, 0, 0, 0, 0], 6, .LITTLE_ENDIAN⟩) ∧
    (List.replicate (2 ^ 30 - 5) (0 : Byte)).length < 2 ^ 31 ∧
    WriteStringCap .LITTLE_ENDIAN (CapStream.new .LITTLE_ENDIAN)
        (List.replicate (2 ^ 30 - 5) 0) = none ∧
    WriteStringCap .BIG_ENDIAN (CapStream.new .BIG_ENDIAN)
        (List.replicate (2 ^ 30 - 5) 0) = none := by
  have hl : (List.replicate (2 ^ 30 - 5) (0 : Byte)).length < 2 ^ 31 := by
    rw [List.length_replicate]
    norm_num
  have hbig : 2 ^ 30 < 6 + (List.replicate (2 ^ 30 - 5) (0 : Byte)).length := by
    rw [List.length_replicate]
    norm_num
  refine ⟨?_, by decide, ?_, by decide, hl, ?_, ?_⟩
  · rw [WriteStringCap_exact _ _ _ (by decide)]
    rfl
  · rw [WriteStringCap_exact _ _ _ (by decide)]
    rfl
  · exact WriteStringCap_fresh_overflow _ _ hl hbig
  · exact WriteStringCap_fresh_overflow _ _ hl hbig

/-- C3, amended: on a freshly constructed stream and for either host byte order,
writing a non-empty string whose encoding, 6 bytes and the text, takes at most
`2^30` bytes and then reading a string returns `true` with the destination equal
to the string written, the cursor standing at the end of the buffer. -/
theorem C3_roundtrip_nonempty_string (host : ByteOrder) (str d : List Byte)
    (hne : str ≠ []) (hsize : 6 + str.length ≤ 2 ^ 30) :
    ∃ sc : CapStream, WriteStringCap host (CapStream.new host) str = some sc ∧
      sc.stream.m_buffer.length = 6 + str.length ∧
      ReadString host sc.stream d =
        some (true, str, { sc.stream with m_position := 6 + str.length }) := by
  have hlen : str.length < 2 ^ 31 := by
    norm_num at hsize ⊢
    omega
  have hw := WriteStringCap_exact host (CapStream.new host) str (by
    simpa [CapStream.new, DataStream.new] using hsize)
  have hr := ReadString_frame host (GetSystemByteOrder host) str d hne hlen [] []
  refine ⟨_, hw, ?_, ?_⟩
  · simp [CapStream.append, CapStream.new, DataStream.new, encode_string_length]
  · simpa [CapStream.append, CapStream.new, DataStream.new] using hr

/-- C3 amended, at a concrete input: the string `"ab"` on a big-endian host. -/
theorem C3_roundtrip_nonempty_string_witness :
    ∃ sc : CapStream,
      WriteStringCap .BIG_ENDIAN (CapStream.new .BIG_ENDIAN) [97, 98] = some sc ∧
      sc.stream.m_buffer.length = 6 + ([97, 98] : List Byte).length ∧
      ReadString .BIG_ENDIAN sc.stream [] =
        some (true, [97, 98],
          { sc.stream with m_position := 6 + ([97, 98] : List Byte).length }) :=
  C3_roundtrip_nonempty_string .BIG_ENDIAN [97, 98] [] (by decide) (by decide)

/-- C6 fails for a field list that does not fit: the single field is a
non-empty string of `2^30 - 5` bytes, whose length fits the length field, and
`Write_args` on a freshly constructed stream does not complete, because the
buffer would take `2^30 + 1` bytes and `capacity *= 2` in `Reserve` overflows
`int`. -/
theorem C6_field_list_counterexample :
    (Value.string (List.replicate (2 ^ 30 - 5) 0)).isField ∧
    Write_argsCap .LITTLE_ENDIAN (CapStream.new .LITTLE_ENDIAN)
      [.string (List.replicate (2 ^ 30 - 5) 0)] = none := by
  have hl : (List.replicate (2 ^ 30 - 5) (0 : Byte)).length < 2 ^ 31 := by
    rw [List.length_replicate]
    norm_num
  have hbig : 2 ^ 30 < 6 + (List.replicate (2 ^ 30 - 5) (0 : Byte)).length := by
    rw [List.length_replicate]
    norm_num
  refine ⟨⟨?_, hl⟩, ?_⟩
  · apply List.ne_nil_of_length_pos
    rw [List.length_replicate]
    norm_num
  · apply Write_argsCap_cons_none
    rw [WriteCap_string]
    exact WriteStringCap_fresh_overflow _ _ hl hbig

/-- C6, amended: on a freshly constructed stream and for either host byte order,
`Write_args` over fields that are `bool`, `char`, `int32_t` or non-empty strings
and whose encodings take at most `2^30` bytes in total, followed by `Read_args`
over destinations of the same types in the same order, returns `true` and
leaves in the destinations exactly the fields written, the cursor standing at
the end of the buffer; and `Read_args` over no destination returns `true` and
leaves the stream as it was. -/
theorem C6_field_list_roundtrip (host : ByteOrder) (fields dests : List Value)
    (hf : ∀ f ∈ fields, f.isField)
    (hk : dests.map Value.kind = fields.map Value.kind)
    (hsize : (fields.map Value.wireSize).sum ≤ 2 ^ 30) :
    (∃ sc : CapStream, Write_argsCap host (CapStream.new host) fields = some sc ∧
      Read_args host sc.stream dests =
        some (true, fields, { sc.stream with m_position := sc.stream.m_buffer.length })) ∧
    (∀ s : DataStream, Read_args host s [] = some (true, [], s)) := by
  obtain ⟨capacity, hw⟩ := Write_argsCap_ok host fields (CapStream.new host) (by
    simpa [CapStream.new, DataStream.new] using hsize)
  refine ⟨⟨_, hw, ?_⟩, fun s => rfl⟩
  have h := Read_args_frame host (GetSystemByteOrder host) fields dests hf hk [] []
  simpa [CapStream.new, DataStream.new] using h

/-- C6 amended, at a concrete input: the fields `true, 'A', -5, "ab"` on a
little-endian host, read into destinations `false, 0, 0, ""`. -/
theorem C6_field_list_roundtrip_witness :
    (∃ sc : CapStream,
      Write_argsCap .LITTLE_ENDIAN (CapStream.new .LITTLE_ENDIAN)
        [.bool true, .char 65, .int32 (-5), .string [97, 98]] = some sc ∧
      Read_args .LITTLE_ENDIAN sc.stream [.bool false, .char 0, .int32 0, .string []] =
        some (true, [.bool true, .char 65, .int32 (-5), .string [97, 98]],
          { sc.stream with m_position := sc.stream.m_buffer.length })) ∧
    (∀ s : DataStream, Read_args .LITTLE_ENDIAN s [] = some (true, [], s)) :=
  C6_field_list_roundtrip .LITTLE_ENDIAN
    [.bool true, .char 65, .int32 (-5), .string [97, 98]]
    [.bool false, .char 0, .int32 0, .string []]
    (by
      intro f hf
      simp only [List.mem_cons, List.mem_singleton, List.not_mem_nil, or_false] at hf
      rcases hf with h | h | h | h <;> subst h <;> simp [Value.isField])
    rfl (by decide)

/-- C22 fails for a value list that does not fit: an `int64_t` and a non-empty
string of `2^30 - 14` bytes, whose length fits the length field, take
`2^30 + 1` bytes; on a freshly constructed stream the `int64_t` is written and
the `Write` of the string does not complete, because `capacity *= 2` in
`Reserve` overflows `int`. -/
theorem C22_in_bounds_counterexample :
    (Value.int64 1).isSafeField ∧
    (Value.string (List.replicate (2 ^ 30 - 14) 0)).isSafeField ∧
    Write_argsCap .BIG_ENDIAN (CapStream.new .BIG_ENDIAN)
      [.int64 1, .string (List.replicate (2 ^ 30 - 14) 0)] = none := by
  have hl : (List.replicate (2 ^ 30 - 14) (0 : Byte)).length < 2 ^ 31 := by
    rw [List.length_replicate]
    norm_num
  refine ⟨trivial, ⟨?_, hl⟩, ?_⟩
  · apply List.ne_nil_of_length_pos
    rw [List.length_replicate]
    norm_num
  · have h1 := WriteCap_exact .BIG_ENDIAN (CapStream.new .BIG_ENDIAN) (.int64 1) (by decide)
    have h2 := WriteStringCap_overflow .BIG_ENDIAN
      (encode .BIG_ENDIAN (CapStream.new .BIG_ENDIAN).stream.m_byteOrder (.int64 1))
      (List.replicate (2 ^ 30 - 14) 0) hl (by decide) (by
        rw [List.length_replicate, encode_length]
        norm_num [Value.wireSize])
    rw [Write_argsCap_cons_some _ _ _ _ _ h1]
    apply Write_argsCap_cons_none
    rw [WriteCap_string]
    exact h2

/-- C22, amended: for either host byte order and every list of `bool`, `char`,
`int32_t`, `int64_t` and non-empty string values whose encodings take at most
`2^30` bytes in total, written in order to a freshly constructed stream,
reading destinations of the same types in the same order has a defined result,
so every buffer access of every `Read` was below the buffer length
(`byteAt_some_lt`, `bytesAt_some_le`); every `Read` returns `true`, so
`Read_args` returns `true`; and the cursor ends exactly at the buffer length. -/
theorem C22_in_bounds_decoding (host : ByteOrder) (fields dests : List Value)
    (hf : ∀ f ∈ fields, f.isSafeField)
    (hk : dests.map Value.kind = fields.map Value.kind)
    (hsize : (fields.map Value.wireSize).sum ≤ 2 ^ 30) :
    ∃ (sc : CapStream) (dests1 : List Value),
      Write_argsCap host (CapStream.new host) fields = some sc ∧
      Read_args host sc.stream dests =
        some (true, dests1, { sc.stream with m_position := sc.stream.m_buffer.length }) := by
  obtain ⟨capacity, hw⟩ := Write_argsCap_ok host fields (CapStream.new host) (by
    simpa [CapStream.new, DataStream.new] using hsize)
  obtain ⟨dests1, h⟩ :=
    Read_args_frame_safe host (GetSystemByteOrder host) fields dests hf hk [] []
  refine ⟨_, dests1, hw, ?_⟩
  simpa [CapStream.new, DataStream.new] using h

/-- C22 amended, at a concrete input: the values `true, 'A', -5, 1 (int64_t),
"ab"` on a little-endian host, read into destinations `false, 0, 0, 0, ""`. -/
theorem C22_in_bounds_decoding_witness :
    ∃ (sc : CapStream) (dests1 : List Value),
      Write_argsCap .LITTLE_ENDIAN (CapStream.new .LITTLE_ENDIAN)
        [.bool true, .char 65, .int32 (-5), .int64 1, .string [97, 98]] = some sc ∧
      Read_args .LITTLE_ENDIAN sc.stream
          [.bool false, .char 0, .int32 0, .int64 0, .string []] =
        some (true, dests1, { sc.stream with m_position := sc.stream.m_buffer.length }) :=
  C22_in_bounds_decoding .LITTLE_ENDIAN
    [.bool true, .char 65, .int32 (-5), .int64 1, .string [97, 98]]
    [.bool false, .char 0, .int32 0, .int64 0, .string []]
    (by
      intro f hf
      simp only [List.mem_cons, List.mem_singleton, List.not_mem_nil, or_false] at hf
      rcases hf with h | h | h | h | h <;> subst h <;> simp [Value.isSafeField])
    rfl (by decide)


theorem wireSize_string (str : List Byte) : (Value.string str).wireSize = 6 + str.length := rfl

theorem Write_argsCap_nil (host : ByteOrder) (sc : CapStream) :
    Write_argsCap host sc [] = some sc := rfl

theorem WriteBoolCap_full (host : ByteOrder) (e : List Byte) (b : Bool)
    (he : e.length = 2 ^ 30) : WriteBoolCap ((CapStream.new host).append e) b = none := by
  simp only [WriteBoolCap, WriteTagCap_full host e _ he]

theorem WriteInt32Cap_full (host : ByteOrder) (e : List Byte) (v : Int)
    (he : e.length = 2 ^ 30) : WriteInt32Cap host ((CapStream.new host).append e) v = none := by
  simp only [WriteInt32Cap, WriteScalarCap, WriteTagCap_full host e _ he]

theorem WriteVectorCap_full {T : Type} (host : ByteOrder)
    (writeElem : CapStream → T → Option CapStream) (e : List Byte) (xs : List T)
    (he : e.length = 2 ^ 30) :
    WriteVectorCap host writeElem ((CapStream.new host).append e) xs = none := by
  simp only [WriteVectorCap, WriteHeaderCap, WriteTagCap_full host e _ he]

/-- A stream that has just taken a string of `2^30 - 6` bytes from a fresh
start holds exactly `2^30` bytes. -/
theorem Write_argsCap_fill (host : ByteOrder) (str : List Byte) (hs : str.length = 2 ^ 30 - 6) :
    ∃ e : List Byte, e.length = 2 ^ 30 ∧
      Write_argsCap host (CapStream.new host) [.string str] =
        some ((CapStream.new host).append e) := by
  have hlen0 : (CapStream.new host).stream.m_buffer.length = 0 := rfl
  have h1 := WriteCap_exact host (CapStream.new host) (.string str) (by
    rw [wireSize_string, hs, hlen0]
    norm_num)
  refine ⟨encode host (CapStream.new host).stream.m_byteOrder (.string str), ?_, ?_⟩
  · rw [encode_length, wireSize_string, hs]
    norm_num
  · rw [Write_argsCap_cons_some _ _ _ _ _ h1, Write_argsCap_nil]

/-- C16 fails for a stream state that is full: after a string of `2^30 - 6`
bytes has been written to a freshly constructed stream, the buffer holds `2^30`
bytes, and neither `Write(bool)` nor `Write(int32_t)` completes, because
`capacity *= 2` in `Reserve` overflows `int`: nothing is appended. -/
theorem C16_wire_layout_counterexample :
    ∃ sc : CapStream,
      Write_argsCap .LITTLE_ENDIAN (CapStream.new .LITTLE_ENDIAN)
        [.string (List.replicate (2 ^ 30 - 6) 0)] = some sc ∧
      sc.stream.m_buffer.length = 2 ^ 30 ∧
      WriteBoolCap sc true = none ∧
      WriteInt32Cap .LITTLE_ENDIAN sc 7 = none := by
  obtain ⟨e, he, hw⟩ := Write_argsCap_fill .LITTLE_ENDIAN (List.replicate (2 ^ 30 - 6) 0)
    (List.length_replicate _ _)
  refine ⟨_, hw, ?_, WriteBoolCap_full _ e true he, WriteInt32Cap_full _ e 7 he⟩
  rw [append_length, he]
  rfl

/-- C16, amended: for every stream state, as long as the buffer after the
write holds at most `2^30` bytes, `Write` leaves the earlier bytes in place and
appends the tag and then the payload: `[0, b]` for a `bool`, `[1, c]` for a
`char`, the tag 2 and four bytes for an `int32_t`, the tag 3 and eight bytes for
an `int64_t`, and for a string the byte 6, then the five bytes that
`Write(int32_t)` appends for the length, then the bytes of the string,
`6 + length` bytes in all. -/
theorem C16_wire_layout (host : ByteOrder) (sc : CapStream) (b : Bool) (c : Byte) (v : Int)
    (str : List Byte) :
    (sc.stream.m_buffer.length + 2 ≤ 2 ^ 30 →
      (WriteBoolCap sc b).map CapStream.stream =
        some { sc.stream with m_buffer := sc.stream.m_buffer ++ [0, if b then 1 else 0] }) ∧
    (sc.stream.m_buffer.length + 2 ≤ 2 ^ 30 →
      (WriteCharCap sc c).map CapStream.stream =
        some { sc.stream with m_buffer := sc.stream.m_buffer ++ [1, c] }) ∧
    (sc.stream.m_buffer.length + 5 ≤ 2 ^ 30 →
      ∃ payload : List Byte, payload.length = 4 ∧
        (WriteInt32Cap host sc v).map CapStream.stream =
          some { sc.stream with m_buffer := sc.stream.m_buffer ++ 2 :: payload }) ∧
    (sc.stream.m_buffer.length + 9 ≤ 2 ^ 30 →
      ∃ payload : List Byte, payload.length = 8 ∧
        (WriteInt64Cap host sc v).map CapStream.stream =
          some { sc.stream with m_buffer := sc.stream.m_buffer ++ 3 :: payload }) ∧
    (sc.stream.m_buffer.length + (6 + str.length) ≤ 2 ^ 30 →
      ∃ len5 : List Byte, len5.length = 5 ∧
        (WriteInt32Cap host ⟨{ sc.stream with m_buffer := [] }, 0⟩
            (str.length : Int)).map CapStream.stream
          = some { sc.stream with m_buffer := len5 } ∧
        (WriteStringCap host sc str).map CapStream.stream =
          some { sc.stream with m_buffer := sc.stream.m_buffer ++ 6 :: (len5 ++ str) } ∧
        (6 :: (len5 ++ str)).length = 6 + str.length) := by
  refine ⟨fun h => ?_, fun h => ?_, fun h => ?_, fun h => ?_, fun h => ?_⟩
  · rw [WriteBoolCap_exact sc b h]
    simp [CapStream.append, DataType.toByte, DataType.toNat, toByte]
  · rw [WriteCharCap_exact sc c h]
    simp [CapStream.append, DataType.toByte, DataType.toNat, toByte]
  · refine ⟨wireScalar host sc.stream.m_byteOrder 4 (toUnsigned 32 v),
      wireScalar_length _ _ _ _, ?_⟩
    rw [WriteInt32Cap, WriteScalarCap_exact host sc .INT32 4 _ h]
    simp [CapStream.append, DataType.toByte, DataType.toNat, toByte]
  · refine ⟨wireScalar host sc.stream.m_byteOrder 8 (toUnsigned 64 v),
      wireScalar_length _ _ _ _, ?_⟩
    rw [WriteInt64Cap, WriteScalarCap_exact host sc .INT64 8 _ h]
    simp [CapStream.append, DataType.toByte, DataType.toNat, toByte]
  · refine ⟨encode host sc.stream.m_byteOrder (.int32 (str.length : Int)),
      encode_int32_length _ _ _, ?_, ?_, ?_⟩
    · rw [WriteInt32Cap, WriteScalarCap_exact host _ .INT32 4 _ (by simp)]
      simp [CapStream.append, encode]
    · rw [WriteStringCap_exact host sc str h]
      simp [CapStream.append, encode, DataType.toByte, DataType.toNat, toByte]
    · simp [encode_int32_length]
      omega

/-- C16 amended, at a concrete input: `true`, `'A'`, `-5`, `-5` and `"ab"` on a
little-endian host, written to a stream that already holds one byte in a
vector of capacity 1. -/
theorem C16_wire_layout_witness :
    (WriteBoolCap ⟨⟨[9], 0, .BIG_ENDIAN⟩, 1⟩ true).map CapStream.stream
      = some { (⟨[9], 0, .BIG_ENDIAN⟩ : DataStream) with m_buffer := [9] ++ [0, 1] } ∧
    (WriteCharCap ⟨⟨[9], 0, .BIG_ENDIAN⟩, 1⟩ 65).map CapStream.stream
      = some { (⟨[9], 0, .BIG_ENDIAN⟩ : DataStream) with m_buffer := [9] ++ [1, 65] } ∧
    (∃ payload : List Byte, payload.length = 4 ∧
      (WriteInt32Cap .LITTLE_ENDIAN ⟨⟨[9], 0, .BIG_ENDIAN⟩, 1⟩ (-5)).map CapStream.stream
        = some { (⟨[9], 0, .BIG_ENDIAN⟩ : DataStream) with m_buffer := [9] ++ 2 :: payload }) ∧
    (∃ payload : List Byte, payload.length = 8 ∧
      (WriteInt64Cap .LITTLE_ENDIAN ⟨⟨[9], 0, .BIG_ENDIAN⟩, 1⟩ (-5)).map CapStream.stream
        = some { (⟨[9], 0, .BIG_ENDIAN⟩ : DataStream) with m_buffer := [9] ++ 3 :: payload }) ∧
    (∃ len5 : List Byte, len5.length = 5 ∧
      (WriteInt32Cap .LITTLE_ENDIAN
          ⟨{ (⟨[9], 0, .BIG_ENDIAN⟩ : DataStream) with m_buffer := [] }, 0⟩
          (([97, 98] : List Byte).length : Int)).map CapStream.stream
        = some { (⟨[9], 0, .BIG_ENDIAN⟩ : DataStream) with m_buffer := len5 } ∧
      (WriteStringCap .LITTLE_ENDIAN ⟨⟨[9], 0, .BIG_ENDIAN⟩, 1⟩ [97, 98]).map CapStream.stream
        = some { (⟨[9], 0, .BIG_ENDIAN⟩ : DataStream) with
            m_buffer := [9] ++ 6 :: (len5 ++ [97, 98]) } ∧
      (6 :: (len5 ++ [97, 98])).length = 6 + ([97, 98] : List Byte).length) :=
  ⟨(C16_wire_layout .LITTLE_ENDIAN ⟨⟨[9], 0, .BIG_ENDIAN⟩, 1⟩ true 65 (-5) [97, 98]).1
      (by decide),
   (C16_wire_layout .LITTLE_ENDIAN ⟨⟨[9], 0, .BIG_ENDIAN⟩, 1⟩ true 65 (-5) [97, 98]).2.1
      (by decide),
   (C16_wire_layout .LITTLE_ENDIAN ⟨⟨[9], 0, .BIG_ENDIAN⟩, 1⟩ true 65 (-5) [97, 98]).2.2.1
      (by decide),
   (C16_wire_layout .LITTLE_ENDIAN ⟨⟨[9], 0, .BIG_ENDIAN⟩, 1⟩ true 65 (-5) [97, 98]).2.2.2.1
      (by decide),
   (C16_wire_layout .LITTLE_ENDIAN ⟨⟨[9], 0, .BIG_ENDIAN⟩, 1⟩ true 65 (-5) [97, 98]).2.2.2.2
      (by decide)⟩


theorem toSigned_length_64 (n : Nat) (h : n < 2 ^ 63) : toSigned 64 n = (n : Int) := by
  unfold toSigned
  norm_num at h ⊢
  split <;> omega

/-- Two operations that append `e1` and `e2` append `e1 ++ e2` when run one
after the other. -/
theorem AppendsCap_seq (order : ByteOrder) (f g F : CapStream → Option CapStream)
    (e1 e2 : List Byte) (hf : AppendsCap order f e1) (hg : AppendsCap order g e2)
    (hF : ∀ sc, F sc = (f sc).bind g) : AppendsCap order F (e1 ++ e2) := by
  intro b p capacity h
  rw [List.length_append] at h
  have h1 := hf b p capacity (by omega)
  rw [hF]
  cases hfs : f ⟨⟨b, p, order⟩, capacity⟩ with
  | none => simp [hfs] at h1
  | some sc1 =>
    obtain ⟨st, capacity1⟩ := sc1
    simp only [hfs, Option.map_some', Option.some.injEq] at h1
    subst h1
    have h2 := hg (b ++ e1) p capacity1 (by rw [List.length_append]; omega)
    simpa using h2

theorem WriteCap_appends (host order : ByteOrder) (v : Value) :
    ∃ e : List Byte, e.length = v.wireSize ∧ AppendsCap order (fun sc => WriteCap host sc v) e := by
  refine ⟨encode host order v, encode_length host order v, ?_⟩
  intro b p capacity h
  rw [encode_length] at h
  show (WriteCap host ⟨⟨b, p, order⟩, capacity⟩ v).map CapStream.stream = _
  rw [WriteCap_exact host _ v h]
  rfl

theorem WriteElemsCap_appends {T : Type} (order : ByteOrder)
    (write : CapStream → T → Option CapStream) (size : T → Nat) (xs : List T)
    (h : ∀ x ∈ xs, ∃ e : List Byte, e.length = size x ∧
      AppendsCap order (fun sc => write sc x) e) :
    ∃ e : List Byte, e.length = (xs.map size).sum ∧
      AppendsCap order (fun sc => WriteElemsCap write sc xs) e := by
  induction xs with
  | nil =>
    refine ⟨[], rfl, ?_⟩
    intro b p capacity _
    simp [WriteElemsCap]
  | cons x xs ih =>
    obtain ⟨e1, hl1, h1⟩ := h x (List.mem_cons_self x xs)
    obtain ⟨e2, hl2, h2⟩ := ih (fun y hy => h y (List.mem_cons_of_mem x hy))
    refine ⟨e1 ++ e2, by simp [hl1, hl2], ?_⟩
    apply AppendsCap_seq order _ _ _ e1 e2 h1 h2
    intro sc
    simp only [WriteElemsCap]
    cases write sc x <;> rfl

theorem WriteHeaderCap_appends (host order : ByteOrder) (t : DataType) (n : Int) :
    ∃ e : List Byte, e.length = 10 ∧
      AppendsCap order (fun sc => WriteHeaderCap host sc t n) e := by
  refine ⟨t.toByte :: encode host order (.int64 n), by simp [encode_length, Value.wireSize], ?_⟩
  intro b p capacity h
  simp only [List.length_cons, encode_length, Value.wireSize] at h
  have h1 := WriteTagCap_exact ⟨⟨b, p, order⟩, capacity⟩ t (by simp only []; omega)
  have h2 := WriteScalarCap_exact host ((⟨⟨b, p, order⟩, capacity⟩ : CapStream).append [t.toByte])
    .INT64 8 (toUnsigned 64 n) (by rw [append_length]; simp; omega)
  simp only [WriteHeaderCap, h1, WriteInt64Cap, h2, CapStream.append_append, Option.map_some']
  simp [CapStream.append, encode]

/-- A container writer, header and then elements, appends ten bytes and the
bytes of the elements. -/
theorem WriteContainerCap_appends {T : Type} (host order : ByteOrder) (t : DataType) (n : Int)
    (write : CapStream → T → Option CapStream) (size : T → Nat) (xs : List T)
    (F : CapStream → Option CapStream)
    (hF : ∀ sc, F sc = (WriteHeaderCap host sc t n).bind (fun sc2 => WriteElemsCap write sc2 xs))
    (h : ∀ x ∈ xs, ∃ e : List Byte, e.length = size x ∧
      AppendsCap order (fun sc => write sc x) e) :
    ∃ e : List Byte, e.length = 10 + (xs.map size).sum ∧ AppendsCap order F e := by
  obtain ⟨e1, hl1, h1⟩ := WriteHeaderCap_appends host order t n
  obtain ⟨e2, hl2, h2⟩ := WriteElemsCap_appends order write size xs h
  exact ⟨e1 ++ e2, by simp [hl1, hl2], AppendsCap_seq order _ _ F e1 e2 h1 h2 hF⟩

/-- C18 fails for a stream state that is full: after a string of `2^30 - 6`
bytes has been written to a freshly constructed stream, the buffer holds `2^30`
bytes, and neither `Write(char)` nor `Write` of a vector completes, because
`capacity *= 2` in `Reserve` overflows `int`: the buffer does not become
`b ++ enc(v)`. -/
theorem C18_append_only_counterexample :
    ∃ sc : CapStream,
      Write_argsCap .BIG_ENDIAN (CapStream.new .BIG_ENDIAN)
        [.string (List.replicate (2 ^ 30 - 6) 0)] = some sc ∧
      sc.stream.m_buffer.length = 2 ^ 30 ∧
      WriteCap .BIG_ENDIAN sc (.char 65) = none ∧
      WriteVectorCap .BIG_ENDIAN (WriteCap .BIG_ENDIAN) sc [.char 65] = none := by
  obtain ⟨e, he, hw⟩ := Write_argsCap_fill .BIG_ENDIAN (List.replicate (2 ^ 30 - 6) 0)
    (List.length_replicate _ _)
  refine ⟨_, hw, ?_, WriteCap_full _ e _ he, WriteVectorCap_full _ _ e _ he⟩
  rw [append_length, he]
  rfl

/-- C18, amended: on a stream that recorded the byte order `order`, on either
host, `Write` of a scalar value, of a vector, list or set of scalars and of a
map between scalars appends a byte sequence of the stated length that is the
same whatever the buffer and the cursor were: as long as the buffer after the
write holds at most `2^30` bytes, the earlier bytes stay in front of the
appended ones unchanged and the cursor and the recorded byte order are as
before. -/
theorem C18_append_only (host order : ByteOrder) :
    (∀ v : Value, ∃ e : List Byte, e.length = v.wireSize ∧
      AppendsCap order (fun sc => WriteCap host sc v) e) ∧
    (∀ xs : List Value, xs.length < 2 ^ 63 →
      ∃ e : List Byte, e.length = 10 + (xs.map Value.wireSize).sum ∧
        AppendsCap order (fun sc => WriteVectorCap host (WriteCap host) sc xs) e) ∧
    (∀ xs : List Value,
      ∃ e : List Byte, e.length = 10 + (xs.map Value.wireSize).sum ∧
        AppendsCap order (fun sc => WriteListCap host (WriteCap host) sc xs) e) ∧
    (∀ xs : List Value,
      ∃ e : List Byte, e.length = 10 + (xs.map Value.wireSize).sum ∧
        AppendsCap order (fun sc => WriteSetCap host (WriteCap host) sc xs) e) ∧
    (∀ m : List (Value × Value),
      ∃ e : List Byte,
        e.length = 10 + (m.map (fun en => en.1.wireSize + en.2.wireSize)).sum ∧
        AppendsCap order (fun sc => WriteMapCap host (WriteCap host) (WriteCap host) sc m) e) := by
  refine ⟨fun v => WriteCap_appends host order v, fun xs hn => ?_, fun xs => ?_, fun xs => ?_,
    fun m => ?_⟩
  · apply WriteContainerCap_appends host order .VECTOR (toSigned 64 xs.length) (WriteCap host)
      Value.wireSize xs _ _ (fun x _ => WriteCap_appends host order x)
    intro sc
    simp only [WriteVectorCap, toSigned_length_64 _ hn, Int.toNat_ofNat, List.take_length]
    cases WriteHeaderCap host sc .VECTOR (xs.length : Int) <;> rfl
  · apply WriteContainerCap_appends host order .LIST (toSigned 64 xs.length) (WriteCap host)
      Value.wireSize xs _ _ (fun x _ => WriteCap_appends host order x)
    intro sc
    simp only [WriteListCap]
    cases WriteHeaderCap host sc .LIST (toSigned 64 xs.length) <;> rfl
  · apply WriteContainerCap_appends host order .SET (toSigned 64 xs.length) (WriteCap host)
      Value.wireSize xs _ _ (fun x _ => WriteCap_appends host order x)
    intro sc
    simp only [WriteSetCap]
    cases WriteHeaderCap host sc .SET (toSigned 64 xs.length) <;> rfl
  · apply WriteContainerCap_appends host order .MAP (toSigned 64 m.length)
      (fun st (en : Value × Value) =>
        match WriteCap host st en.1 with
        | none => none
        | some st1 => WriteCap host st1 en.2)
      (fun en => en.1.wireSize + en.2.wireSize) m _ _ (fun en _ => ?_)
    · intro sc
      simp only [WriteMapCap]
      cases WriteHeaderCap host sc .MAP (toSigned 64 m.length) <;> rfl
    · obtain ⟨e1, hl1, h1⟩ := WriteCap_appends host order en.1
      obtain ⟨e2, hl2, h2⟩ := WriteCap_appends host order en.2
      refine ⟨e1 ++ e2, by simp [hl1, hl2], ?_⟩
      apply AppendsCap_seq order _ _ _ e1 e2 h1 h2
      intro sc
      dsimp only
      cases WriteCap host sc en.1 <;> rfl

/-- C18 amended, at a concrete input: the vector `{true, -5, "ab"}` of scalars
on a little-endian host appends `10 + (2 + 5 + 8)` bytes. -/
theorem C18_append_only_witness :
    ∃ e : List Byte,
      e.length = 10 + (([.bool true, .int32 (-5), .string [97, 98]] : List Value).map
        Value.wireSize).sum ∧
      AppendsCap .BIG_ENDIAN (fun sc =>
        WriteVectorCap .LITTLE_ENDIAN (WriteCap .LITTLE_ENDIAN) sc
          [.bool true, .int32 (-5), .string [97, 98]]) e :=
  (C18_append_only .LITTLE_ENDIAN .BIG_ENDIAN).2.1
    [.bool true, .int32 (-5), .string [97, 98]] (by decide)


end Vanish.Serialize
